import Mathlib

/-!
Verification of the `withhacks` package (files `withhacks/__init__.py` and
`withhacks/frameutils.py`) against its natural-language specification.

The development shallowly embeds the data model of the package:

* Python values are modelled by `Val`; Python dictionaries (used for
  `frame.f_locals`, `frame.f_globals`, `frame.f_builtins`, captured-locals
  dictionaries and keyword-argument dictionaries) are modelled by
  insertion-ordered association lists (`Dict`) with the CPython semantics
  that assigning to an existing key replaces the value in place, keeping
  the key's original position.
* Instructions of the `bytecode` library are modelled by `AbsItem`
  (either a `Label` or an `Instr` with an opcode name and an argument);
  concrete (fixed layout) instructions by `ConcreteInstr`, which carries
  the encoded size in bytes.
* Exceptions are modelled by `Exc` (instances) and `ExcClass` (classes).

Each function of the source that the claims mention is translated into a
Lean definition bearing the same name (modulo Lean naming rules).  The
file lists all definitions first and then the theorems about them.
-/

namespace WithHacks

/-- Exception classes.  `exitContext` models the sentinel class
`_ExitContext` from `withhacks/__init__.py`; `otherClass` models any
further user-defined exception class. -/
inductive ExcClass where
  | attributeError
  | keyError
  | nameError
  | exitContext
  | notImplementedError
  | otherClass (n : Nat)
deriving DecidableEq, Repr

/-- Exception instances, with `classOf` giving the class of an instance. -/
inductive Exc where
  | attrErr (msg : String)
  | keyErr (msg : String)
  | nameErr (msg : String)
  | exitCtx
  | notImpl (msg : String)
  | other (n : Nat)
deriving DecidableEq, Repr

def classOf : Exc → ExcClass
  | .attrErr _ => .attributeError
  | .keyErr _ => .keyError
  | .nameErr _ => .nameError
  | .exitCtx => .exitContext
  | .notImpl _ => .notImplementedError
  | .other n => .otherClass n

/-- Python values.  `obj n` is an opaque object identity (`obj 0` is
reserved for the namespace/keyspace target object); `excClass`, `excVal`
and `traceback` are the values pushed by exception unwinding;
`funcLoadName` is the function object `withhacks.frameutils.load_name`
and `frameRef` a reference to the context frame, both of which
`namespace._replace_opcode` embeds as `LOAD_CONST` constants. -/
inductive Val where
  | int (n : Int)
  | str (s : String)
  | pynone
  | bool (b : Bool)
  | obj (n : Nat)
  | excClass (c : ExcClass)
  | excVal (e : Exc)
  | traceback
  | funcLoadName
  | frameRef
deriving DecidableEq, Repr

/-- Python dictionaries with string keys, as insertion-ordered
association lists. -/
abbrev Dict := List (String × Val)

/-- Dictionary lookup (`d[k]`, first matching key). -/
def dlookup : Dict → String → Option Val
  | [], _ => none
  | (k, v) :: rest, n => if k = n then some v else dlookup rest n

/-- Dictionary assignment `d[k] = v`: replaces the value in place if the
key is present (CPython keeps the original insertion position), appends
otherwise. -/
def dinsert : Dict → String → Val → Dict
  | [], n, v => [(n, v)]
  | (k, w) :: rest, n, v =>
      if k = n then (k, v) :: rest else (k, w) :: dinsert rest n v

/-- The suspended execution context ("frame"): its local, module-level
and built-in bindings (`withhacks` only reads these three mappings). -/
structure PyFrame where
  f_locals : Dict
  f_globals : Dict
  f_builtins : Dict
deriving DecidableEq, Repr

/-- `withhacks.frameutils.load_name(frame, name)`: look the name up in
`f_locals`, then `f_globals`, then `f_builtins`; raise `NameError(name)`
when all three lookups fail.  The source catches the `KeyError` of each
dictionary access; the embedding matches on the `Option` result. -/
def load_name (frame : PyFrame) (name : String) : Except Exc Val :=
  match dlookup frame.f_locals name with
  | some v => .ok v
  | none =>
    match dlookup frame.f_globals name with
    | some v => .ok v
    | none =>
      match dlookup frame.f_builtins name with
      | some v => .ok v
      | none => .error (.nameErr name)

/-! ## Context Hack Base: `WithHack.__enter__` / `WithHack.__exit__` -/

/-- The two execution-control flags of `WithHack` (class attributes
`dont_execute` and `must_execute`). -/
structure HackFlags where
  dont_execute : Bool
  must_execute : Bool
deriving DecidableEq, Repr

/-- `withhacks._exit_context`: the trace callback that raises the
`_ExitContext` sentinel. -/
def exit_context : Unit → Option Exc := fun _ => some .exitCtx

/-- `WithHack.__enter__`: when `dont_execute` is set and `must_execute`
is not, the `_exit_context` callback is injected as a trace function for
the context frame (via `inject_trace_func`); otherwise nothing is
injected. -/
def withhack_enter (flags : HackFlags) : List (Unit → Option Exc) :=
  if flags.dont_execute && !flags.must_execute then [exit_context] else []

/-- `WithHack.__exit__(exc_type, ...)`: returns `True` (suppress the
exception) exactly when the propagating exception's type `is` the
`_ExitContext` sentinel class; in every other case (including no
exception, `exc_type = none`) it returns `False` and the exception, if
any, propagates unchanged. -/
def withhack_exit (exc_type : Option ExcClass) : Bool :=
  match exc_type with
  | some ExcClass.exitContext => true
  | _ => false

/-- The first exception raised by a list of injected trace callbacks. -/
def firstExc : List (Unit → Option Exc) → Option Exc
  | [] => none
  | cb :: rest =>
    match cb () with
    | some e => some e
    | none => firstExc rest

/-- Modelled from the spec: the host-engine contract for trace hooks
(spec 4.1 and 6): every callback injected for a suspended frame runs
synchronously at the next hook firing, before the first instruction of
the block body executes, and a callback that raises an exception makes
the engine route that exception to the block's exit without executing
any body instruction.  The block body is an ordered list of state
transformers (its instructions); the engine applies them in order only
when no injected callback raised. -/
def engineRunBlock {S : Type} (callbacks : List (Unit → Option Exc))
    (body : List (S → S)) (s : S) : S × Option Exc :=
  match firstExc callbacks with
  | some e => (s, some e)
  | none => (body.foldl (fun a f => f a) s, none)

/-- One whole `with WithHack(...):` block: enter (possibly injecting the
skip callback), let the engine run the body, then `__exit__` decides
whether a propagating exception is suppressed. -/
def runWithBlock {S : Type} (flags : HackFlags) (body : List (S → S))
    (s : S) : S × Option Exc :=
  match engineRunBlock (withhack_enter flags) body s with
  | (s1, some e) =>
      if withhack_exit (some (classOf e)) then (s1, none) else (s1, some e)
  | (s1, none) => (s1, none)

/-! ## Instructions -/

/-- Instruction arguments: variable names, constants, jump targets
(label identities), small integers (`CALL_FUNCTION` argument counts) and
the `EXC_MATCH` comparison operator. -/
inductive Arg where
  | noArg
  | name (s : String)
  | const (v : Val)
  | target (l : Nat)
  | num (n : Nat)
  | cmpExcMatch
deriving DecidableEq, Repr

/-- An item of a `bytecode.Bytecode` sequence: either a `Label` or an
abstract instruction (opcode name plus argument). -/
inductive AbsItem where
  | label (l : Nat)
  | instr (name : String) (arg : Arg)
deriving DecidableEq, Repr

/-- `isinstance(b, bytecode.instr.BaseInstr)`. -/
def isInstrItem : AbsItem → Bool
  | .instr _ _ => true
  | .label _ => false

/-- The instructions of a sequence, labels dropped. -/
def instrsOf : List AbsItem → List AbsItem
  | [] => []
  | .label _ :: rest => instrsOf rest
  | .instr n a :: rest => .instr n a :: instrsOf rest

/-- Number of instructions (labels not counted) of a sequence. -/
def instrCount (bc : List AbsItem) : Nat := (instrsOf bc).length

/-- A concrete (fixed-layout) instruction of `bytecode.ConcreteBytecode`:
opcode name and encoded size in bytes (`c.size`). -/
structure ConcreteInstr where
  name : String
  size : Nat
deriving DecidableEq, Repr

/-! ## Code Extractor: `withhacks.frameutils.extract_code` -/

/-- Total encoded size of a concrete instruction list
(`len(code.co_code)`). -/
def sizeTotal (cs : List ConcreteInstr) : Nat := (cs.map (·.size)).sum

/-- The loop of `extract_code` that converts a raw byte offset into a
`ConcreteBytecode` index: starting from accumulated size `a`, count the
instructions whose accumulated size after them is still strictly below
the offset. -/
def offIndex : List Nat → Nat → Nat → Nat
  | [], _, _ => 0
  | s :: ss, a, off => (if a + s < off then 1 else 0) + offIndex ss (a + s) off

/-- Raw byte offset to concrete-instruction index (the `start_c`/`end_c`
computation of `extract_code`). -/
def byteToIndex (cs : List ConcreteInstr) (off : Nat) : Nat :=
  offIndex (cs.map (·.size)) 0 off

/-- The loop of `extract_code` that converts a `ConcreteBytecode` index
into a `Bytecode` index: scan the abstract item list, remembering (and
overwriting) the position each time the number of instructions seen so
far equals the target; `a` counts instruction items seen, `i` is the
current position. -/
def lastAt : List AbsItem → Nat → Nat → Nat → Option Nat → Option Nat
  | [], _, _, _, acc => acc
  | .label _ :: rest, i, a, tgt, acc =>
      lastAt rest (i + 1) a tgt (if a = tgt then some i else acc)
  | .instr _ _ :: rest, i, a, tgt, acc =>
      lastAt rest (i + 1) (a + 1) tgt (if a = tgt then some i else acc)

/-- `withhacks.frameutils.extract_code(frame, start, stop)`.  `cs` is the
concrete decoding `ConcreteBytecode.from_code(frame.f_code)` of the
frame's code and `bc` its abstract form `cs.to_bytecode()` (the source
assumes the instructions of the two correspond one to one; the theorems
carry that correspondence as the hypothesis
`instrCount bc = cs.length`).  The two raw offsets are mapped to
concrete indices by `byteToIndex`, those to abstract positions by
`lastAt`, and the abstract list is sliced between the two positions
(Python slice semantics: a missing position defaults to `0` on the left
and to `len` on the right). -/
def extract_code (cs : List ConcreteInstr) (bc : List AbsItem)
    (start stop : Nat) : List AbsItem :=
  let startB := (lastAt bc 0 0 (byteToIndex cs start) none).getD 0
  let stopB := (lastAt bc 0 0 (byteToIndex cs stop) none).getD bc.length
  (bc.take stopB).drop startB

/-- Accumulated size of the first `i` concrete instructions: the raw
offset of the boundary before instruction `i`. -/
def boundAt : List Nat → Nat → Nat
  | _, 0 => 0
  | [], _ + 1 => 0
  | s :: ss, i + 1 => s + boundAt ss i

/-- Position, in an abstract item list, of its `t`-th instruction
(labels occupy positions but are not counted). -/
def posInstr : List AbsItem → Nat → Nat
  | [], _ => 0
  | .label _ :: rest, t => posInstr rest t + 1
  | .instr _ _ :: _, 0 => 0
  | .instr _ _ :: rest, t + 1 => posInstr rest t + 1

/-! ## Access Rewriter, function mode:
`CaptureBytecode._change_lookups` -/

/-- The rewriting `CaptureBytecode._change_lookups` applies to one
instruction, given the declared parameter names `args` and the key set
`locals` of the existing local bindings.  Only name-carrying
instructions are touched; all other items pass through. -/
def change_lookup_instr (args locals_ : List String) (it : AbsItem) : AbsItem :=
  match it with
  | .instr n (.name x) =>
    if n = "LOAD_FAST" ∨ n = "LOAD_DEREF" ∨ n = "LOAD_NAME" ∨ n = "LOAD_GLOBAL" then
      if x ∈ args then .instr "LOAD_FAST" (.name x)
      else if n = "LOAD_FAST" ∨ n = "LOAD_DEREF" then
        if x ∈ locals_ then .instr "LOAD_NAME" (.name x)
        else .instr "LOAD_FAST" (.name x)
      else it
    else if n = "STORE_FAST" ∨ n = "STORE_DEREF" ∨ n = "STORE_NAME" ∨ n = "STORE_GLOBAL" then
      if x ∈ args then .instr "STORE_FAST" (.name x)
      else if n = "STORE_FAST" ∨ n = "STORE_DEREF" then
        if x ∈ locals_ then .instr "STORE_NAME" (.name x)
        else .instr "STORE_FAST" (.name x)
      else it
    else if n = "DELETE_FAST" ∨ n = "DELETE_NAME" ∨ n = "DELETE_GLOBAL" then
      if x ∈ args then .instr "DELETE_FAST" (.name x)
      else if n = "DELETE_FAST" then
        if x ∈ locals_ then .instr "DELETE_NAME" (.name x)
        else .instr "DELETE_FAST" (.name x)
      else it
    else it
  | _ => it

/-- `CaptureBytecode._change_lookups` over a whole sequence (the source
mutates each instruction in place; the embedding maps over the list). -/
def change_lookups (args locals_ : List String) (code : List AbsItem) :
    List AbsItem :=
  code.map (change_lookup_instr args locals_)

/-- The behaviour claim C3 has to be corrected to (stated from the
source, for comparison with `change_lookup_instr`): a name in `args` is
forced to the `_FAST` form of its operation kind; otherwise the
`_FAST`/`_DEREF` forms become `_NAME` when the name is an existing local
and `_FAST` when not; the `_NAME`/`_GLOBAL` forms (and `DELETE_DEREF`,
which the delete branch does not match at all) are left unchanged, as is
the locals fallback for `DELETE_DEREF`: only `DELETE_FAST` consults
`locals`. -/
def changeLookupAmended (args locals_ : List String) (it : AbsItem) : AbsItem :=
  match it with
  | .instr n (.name x) =>
    if n = "LOAD_FAST" ∨ n = "LOAD_DEREF" ∨ n = "LOAD_NAME" ∨ n = "LOAD_GLOBAL" then
      if x ∈ args then .instr "LOAD_FAST" (.name x)
      else if n = "LOAD_NAME" ∨ n = "LOAD_GLOBAL" then it
      else if x ∈ locals_ then .instr "LOAD_NAME" (.name x)
      else .instr "LOAD_FAST" (.name x)
    else if n = "STORE_FAST" ∨ n = "STORE_DEREF" ∨ n = "STORE_NAME" ∨ n = "STORE_GLOBAL" then
      if x ∈ args then .instr "STORE_FAST" (.name x)
      else if n = "STORE_NAME" ∨ n = "STORE_GLOBAL" then it
      else if x ∈ locals_ then .instr "STORE_NAME" (.name x)
      else .instr "STORE_FAST" (.name x)
    else if n = "DELETE_FAST" ∨ n = "DELETE_NAME" ∨ n = "DELETE_GLOBAL" then
      if x ∈ args then .instr "DELETE_FAST" (.name x)
      else if n = "DELETE_NAME" ∨ n = "DELETE_GLOBAL" then it
      else if x ∈ locals_ then .instr "DELETE_NAME" (.name x)
      else .instr "DELETE_FAST" (.name x)
    else it
  | _ => it

/-! ## Bytecode Capture: `CaptureBytecode._run_as_clause` -/

/-- `any(instr.name == 'STORE_FAST' for instr in clause)`. -/
def containsStoreFast (items : List AbsItem) : Bool :=
  items.any fun it =>
    match it with
    | .instr n _ => n == "STORE_FAST"
    | _ => false

/-- The code object `_run_as_clause` synthesizes in its general path:
a placeholder constant (`dummy = object()`, modelled as `obj 1`) is
prepended to the as-clause, and `LOAD_CONST None; RETURN_VALUE` is
appended. -/
def buildAsCode (asClause : List AbsItem) : List AbsItem :=
  (.instr "LOAD_CONST" (.const (.obj 1)) :: asClause)
    ++ [.instr "LOAD_CONST" (.const .pynone), .instr "RETURN_VALUE" .noArg]

/-- The action `CaptureBytecode._run_as_clause(value)` decides on:
directly inject a single local binding, do nothing, raise
`NotImplementedError`, or compile and execute a synthesized code object
(whose pre-compilation instruction list is recorded). -/
inductive AsResult where
  | setLocals (n : String) (v : Val)
  | noop
  | unsupported
  | general (code : List AbsItem)
deriving DecidableEq, Repr

/-- `CaptureBytecode._run_as_clause`, dispatch structure of the source:
a one-instruction as-clause that is a `STORE_FAST` injects the binding
via `_set_context_locals` (in the source a `STORE_FAST` argument is
always a variable name); a one-instruction `POP_TOP` is a no-op; any
other as-clause containing a `STORE_FAST` raises `NotImplementedError`
before anything is built or executed; otherwise the general path builds
`buildAsCode`, rewrites it with `_change_lookups(args=(),
locals=frame.f_locals)` and executes it in the context frame. -/
def run_as_clause (frameLocalKeys : List String) (asClause : List AbsItem)
    (value : Val) : AsResult :=
  match asClause with
  | [.instr "STORE_FAST" (.name n)] => .setLocals n value
  | [.instr "POP_TOP" _] => .noop
  | clause =>
      if containsStoreFast clause then .unsupported
      else .general (change_lookups [] frameLocalKeys (buildAsCode clause))

/-- The observable effect of an `AsResult` on the context frame:
`setLocals` merges the binding into `f_locals` (the effect of the
injected `frame.f_locals.update` callback), `noop` leaves the frame
unchanged, `unsupported` raises `NotImplementedError` with no partial
result.  The execution of the general path's compiled code is not
modelled (no claim depends on it); it leaves the frame unchanged here. -/
def applyAsResult (r : AsResult) (frame : PyFrame) : Except Exc PyFrame :=
  match r with
  | .setLocals n v => .ok { frame with f_locals := dinsert frame.f_locals n v }
  | .noop => .ok frame
  | .unsupported => .error (.notImpl "Cannot handle this as clause")
  | .general _ => .ok frame

/-! ## `CaptureLocals` / `CaptureOrderedLocals` -/

/-- The names stored by a captured instruction sequence: the arguments
of its `STORE_FAST`/`STORE_NAME` instructions, in order, with
repetitions. -/
def storedNames : List AbsItem → List String
  | [] => []
  | .instr m (.name x) :: rest =>
      if m = "STORE_FAST" ∨ m = "STORE_NAME" then x :: storedNames rest
      else storedNames rest
  | _ :: rest => storedNames rest

/-- The loop of `CaptureLocals.__exit__`: for each
`STORE_FAST`/`STORE_NAME` instruction of the captured bytecode, assign
`locals[instr.arg] = frame.f_locals[instr.arg]`; the lookup raising
`KeyError` (name not bound at block exit) yields `none`.  `dest_type`
(`dict` for `CaptureLocals`, `OrderedDict` for `CaptureOrderedLocals`)
is modelled by the single insertion-ordered `Dict`: both keep the first
insertion position of a key when it is assigned again. -/
def captureLocalsAux (fl : Dict) : List AbsItem → Dict → Option Dict
  | [], acc => some acc
  | .instr m (.name x) :: rest, acc =>
      if m = "STORE_FAST" ∨ m = "STORE_NAME" then
        match dlookup fl x with
        | some v => captureLocalsAux fl rest (dinsert acc x v)
        | none => none
      else captureLocalsAux fl rest acc
  | _ :: rest, acc => captureLocalsAux fl rest acc

/-- `CaptureLocals.__exit__` starting from the fresh empty
`dest_type()`. -/
def captureLocals (fl : Dict) (bc : List AbsItem) : Option Dict :=
  captureLocalsAux fl bc []

/-- First-occurrence deduplication: the key order produced by inserting
a list of names in order into an insertion-ordered dictionary. -/
def dedupFirst : List String → List String
  | [] => []
  | x :: rest => x :: dedupFirst (rest.filter (fun y => y != x))
termination_by l => l.length
decreasing_by
  simp only [List.length_cons]
  exact Nat.lt_succ_of_le (List.length_filter_le _ _)

/-- The captured bytecode of the block `x = 7; y = 8` (inside the
`with`-statement of the claim's scenario). -/
def demoAssignBc : List AbsItem :=
  [.instr "LOAD_CONST" (.const (.int 7)), .instr "STORE_FAST" (.name "x"),
   .instr "LOAD_CONST" (.const (.int 8)), .instr "STORE_FAST" (.name "y")]

/-! ## `CaptureModifiedLocals` -/

/-- The loop of `CaptureModifiedLocals.__exit__`: iterate over the
frame's locals at block exit; skip a binding whose value `is` the hack
instance itself (`selfVal`); report a binding absent from the pre-block
snapshot, or present with a different (`!=`) value. -/
def captureModifiedAux (selfVal : Val) (pre : Dict) :
    List (String × Val) → Dict → Dict
  | [], acc => acc
  | (n, v) :: rest, acc =>
      if v = selfVal then captureModifiedAux selfVal pre rest acc
      else
        match dlookup pre n with
        | none => captureModifiedAux selfVal pre rest (dinsert acc n v)
        | some w =>
            if w = v then captureModifiedAux selfVal pre rest acc
            else captureModifiedAux selfVal pre rest (dinsert acc n v)

/-- `CaptureModifiedLocals.__exit__`: `post` is `frame.f_locals` at exit,
`pre` its snapshot from `__enter__`. -/
def captureModified (selfVal : Val) (pre post : Dict) : Dict :=
  captureModifiedAux selfVal pre post []

/-! ## `xkwargs` -/

/-- Python `dict.update`: assign every pair of `upd` into `base`, in
order. -/
def dictUpdate : Dict → Dict → Dict
  | base, [] => base
  | base, (n, v) :: rest => dictUpdate (dinsert base n v) rest

/-- `xkwargs.__exit__`: copy the constructor keyword dictionary, update
it with the block-captured locals, and call the wrapped function on the
merged keyword dictionary. -/
def xkwargs_exit (func : Dict → Val) (ctorKwds capturedLocals : Dict) : Val :=
  func (dictUpdate ctorKwds capturedLocals)

/-! ## Access Rewriter, target-redirect mode:
`namespace._replace_opcode` and `keyspace._replace_opcode`, with a small
operational semantics of the emitted instruction sequences -/

/-- The name of the synthesized function's first argument, which is
bound to the target object (`"_[namespace]"` in the source). -/
def nsVar : String := "_[namespace]"

/-- The scratch local used by the emitted guarded load
(`"_[ns_value]"` in the source). -/
def nsValVar : String := "_[ns_value]"

/-- The guarded load sequence `namespace._replace_opcode` emits for a
`LOAD_*` instruction with variable name `x`.  `loadOps` is the
target-access load (`_load(instr)` in the source: `LOAD_ATTR x` for
attribute style, `LOAD_CONST x; BINARY_SUBSCR` for key style) and `excC`
the caught exception class (`_exc`: `AttributeError`, resp. `KeyError`).
Labels: `0` is `excIn`, `1` is `excOut`, `2` is `end`. -/
def guardedLoad (loadOps : List AbsItem) (excC : ExcClass) (x : String) :
    List AbsItem :=
  [.instr "SETUP_EXCEPT" (.target 0),
   .instr "LOAD_FAST" (.name nsVar)] ++ loadOps ++
  [.instr "STORE_FAST" (.name nsValVar),
   .instr "POP_BLOCK" .noArg,
   .instr "JUMP_FORWARD" (.target 2),
   .label 0,
   .instr "DUP_TOP" .noArg,
   .instr "LOAD_CONST" (.const (.excClass excC)),
   .instr "COMPARE_OP" .cmpExcMatch,
   .instr "POP_JUMP_IF_FALSE" (.target 1),
   .instr "POP_TOP" .noArg,
   .instr "POP_TOP" .noArg,
   .instr "POP_TOP" .noArg,
   .instr "LOAD_CONST" (.const .funcLoadName),
   .instr "LOAD_CONST" (.const .frameRef),
   .instr "LOAD_CONST" (.const (.str x)),
   .instr "CALL_FUNCTION" (.num 2),
   .instr "STORE_FAST" (.name nsValVar),
   .instr "POP_EXCEPT" .noArg,
   .instr "JUMP_FORWARD" (.target 2),
   .label 1,
   .instr "END_FINALLY" .noArg,
   .label 2,
   .instr "LOAD_FAST" (.name nsValVar)]

/-- `namespace._replace_opcode(instr, frame, *, _load, _store, _delete,
_exc)`: stores and deletes of local/name variables become a load of the
target object followed by the target-access store/delete; loads of
local/name/global/closure variables become the guarded sequence.  Other
instructions are left alone (`None` in the source).  The source's
keyword lambdas receive the instruction and use its argument `i.arg`;
here they receive that name directly.  (In the source the matched
opcodes always carry a variable name as argument.) -/
def replaceOpcodeG (ldF stF delF : String → List AbsItem) (excC : ExcClass)
    (it : AbsItem) : Option (List AbsItem) :=
  match it with
  | .instr n (.name x) =>
    if n = "STORE_FAST" ∨ n = "STORE_NAME" then
      some (.instr "LOAD_FAST" (.name nsVar) :: stF x)
    else if n = "DELETE_FAST" ∨ n = "DELETE_NAME" then
      some (.instr "LOAD_FAST" (.name nsVar) :: delF x)
    else if n = "LOAD_FAST" ∨ n = "LOAD_NAME" ∨ n = "LOAD_GLOBAL"
        ∨ n = "LOAD_DEREF" then
      some (guardedLoad (ldF x) excC x)
    else none
  | _ => none

/-- `namespace._replace_opcode` with its default keyword arguments:
attribute-style access, catching `AttributeError`. -/
def nsReplaceOpcode : AbsItem → Option (List AbsItem) :=
  replaceOpcodeG
    (fun x => [.instr "LOAD_ATTR" (.name x)])
    (fun x => [.instr "STORE_ATTR" (.name x)])
    (fun x => [.instr "DELETE_ATTR" (.name x)])
    .attributeError

/-- `keyspace._replace_opcode`: key-style access (`LOAD_CONST key`
followed by a subscript operation), catching `KeyError`. -/
def ksReplaceOpcode : AbsItem → Option (List AbsItem) :=
  replaceOpcodeG
    (fun x => [.instr "LOAD_CONST" (.const (.str x)),
               .instr "BINARY_SUBSCR" .noArg])
    (fun x => [.instr "LOAD_CONST" (.const (.str x)),
               .instr "STORE_SUBSCR" .noArg])
    (fun x => [.instr "LOAD_CONST" (.const (.str x)),
               .instr "DELETE_SUBSCR" .noArg])
    .keyError

/-- The store replacement emitted by `namespace._replace_opcode`. -/
def nsStoreSeq (x : String) : List AbsItem :=
  [.instr "LOAD_FAST" (.name nsVar), .instr "STORE_ATTR" (.name x)]

/-- The store replacement emitted by `keyspace._replace_opcode`. -/
def ksStoreSeq (x : String) : List AbsItem :=
  [.instr "LOAD_FAST" (.name nsVar),
   .instr "LOAD_CONST" (.const (.str x)), .instr "STORE_SUBSCR" .noArg]

/-- The load replacement emitted by `namespace._replace_opcode`. -/
def nsLoadSeq (x : String) : List AbsItem :=
  guardedLoad [.instr "LOAD_ATTR" (.name x)] .attributeError x

/-- The load replacement emitted by `keyspace._replace_opcode`. -/
def ksLoadSeq (x : String) : List AbsItem :=
  guardedLoad [.instr "LOAD_CONST" (.const (.str x)),
    .instr "BINARY_SUBSCR" .noArg] .keyError x

/-- Drop items up to and including the first occurrence of label `l`
(forward-jump resolution for the machine below; every jump in the
emitted sequences is a forward jump; an absent label empties the
sequence). -/
def dropToLabel (l : Nat) (xs : List AbsItem) : List AbsItem :=
  xs.drop (xs.findIdx (fun it => it == AbsItem.label l) + 1)

/-- The environment of an execution of a rewritten sequence: the target
object's attribute reads (`getattr(target, name)`), its key reads
(`target[name]`) — either may raise — and the context frame that the
rewrite embedded for the `load_name` fallback. -/
structure Machine where
  getattr : String → Except Exc Val
  getitem : String → Except Exc Val
  frame : PyFrame

/-- Machine state: value stack (head is the top), the synthesized
function's local bindings, the `SETUP_EXCEPT` block stack (handler
label, saved stack depth), and the trace of stores performed on the
target object (most recent first). -/
structure MState where
  stack : List Val
  locals : Dict
  blocks : List (Nat × Nat)
  stores : List (String × Val)
deriving DecidableEq, Repr

/-- Outcome of running a sequence: normal completion, an uncaught Python
exception, or an untranslatable configuration (never reached on the
emitted sequences). -/
inductive Outcome where
  | ok (st : MState)
  | raised (e : Exc)
  | stuck
deriving DecidableEq, Repr

/-- Truncate a stack to its bottom `d` values (exception unwinding). -/
def popTo (d : Nat) (stk : List Val) : List Val := stk.drop (stk.length - d)

/-- The unwound state entering an exception handler: the stack is cut
back to the saved depth and the engine pushes the traceback, the
exception value and the exception type (type on top). -/
def unwindStack (e : Exc) (d : Nat) (stk : List Val) : List Val :=
  .excClass (classOf e) :: .excVal e :: .traceback :: popTo d stk

/-- The result of one instruction of the machine below: fall through to
the next instruction, jump forward to a label, raise an exception (to be
routed to the innermost `SETUP_EXCEPT` handler), or an untranslatable
configuration. -/
inductive StepRes where
  | next (st : MState)
  | jump (l : Nat) (st : MState)
  | raiseE (e : Exc) (st : MState)
  | stuck
deriving DecidableEq, Repr

/-- One instruction of the CPython (pre-3.8) opcodes appearing in the
sequences emitted by `namespace._replace_opcode` and
`keyspace._replace_opcode`.  Attribute/key reads go through the machine
environment; `COMPARE_OP` is the `EXC_MATCH` test of a raised
exception's type against an exception class; `END_FINALLY` re-raises;
`CALL_FUNCTION 2` is the embedded `load_name(frame, name)` fallback
call; stores on the target object (it is `obj 0`) are recorded in the
`stores` trace. -/
def step (m : Machine) (n : String) (a : Arg) (st : MState) : StepRes :=
  if n = "LOAD_CONST" then
    match a with
    | .const v => .next { st with stack := v :: st.stack }
    | _ => .stuck
  else if n = "LOAD_FAST" then
    match a with
    | .name x =>
      match dlookup st.locals x with
      | some v => .next { st with stack := v :: st.stack }
      | none => .stuck
    | _ => .stuck
  else if n = "STORE_FAST" then
    match a, st.stack with
    | .name x, v :: stk =>
        .next { st with stack := stk, locals := dinsert st.locals x v }
    | _, _ => .stuck
  else if n = "DUP_TOP" then
    match st.stack with
    | v :: stk => .next { st with stack := v :: v :: stk }
    | _ => .stuck
  else if n = "POP_TOP" then
    match st.stack with
    | _ :: stk => .next { st with stack := stk }
    | _ => .stuck
  else if n = "SETUP_EXCEPT" then
    match a with
    | .target l => .next { st with blocks := (l, st.stack.length) :: st.blocks }
    | _ => .stuck
  else if n = "POP_BLOCK" then
    match st.blocks with
    | _ :: bs => .next { st with blocks := bs }
    | _ => .stuck
  else if n = "POP_EXCEPT" then
    .next st
  else if n = "JUMP_FORWARD" then
    match a with
    | .target l => .jump l st
    | _ => .stuck
  else if n = "POP_JUMP_IF_FALSE" then
    match a, st.stack with
    | .target l, .bool b :: stk =>
        if b then .next { st with stack := stk }
        else .jump l { st with stack := stk }
    | _, _ => .stuck
  else if n = "COMPARE_OP" then
    match a, st.stack with
    | .cmpExcMatch, .excClass c2 :: .excClass c1 :: stk =>
        .next { st with stack := .bool (decide (c1 = c2)) :: stk }
    | _, _ => .stuck
  else if n = "LOAD_ATTR" then
    match a, st.stack with
    | .name x, tgt :: stk =>
        if tgt = .obj 0 then
          match m.getattr x with
          | .ok v => .next { st with stack := v :: stk }
          | .error e => .raiseE e { st with stack := stk }
        else .stuck
    | _, _ => .stuck
  else if n = "BINARY_SUBSCR" then
    match st.stack with
    | .str x :: tgt :: stk =>
        if tgt = .obj 0 then
          match m.getitem x with
          | .ok v => .next { st with stack := v :: stk }
          | .error e => .raiseE e { st with stack := stk }
        else .stuck
    | _ => .stuck
  else if n = "STORE_ATTR" then
    match a, st.stack with
    | .name x, tgt :: v :: stk =>
        if tgt = .obj 0 then
          .next { st with stack := stk, stores := (x, v) :: st.stores }
        else .stuck
    | _, _ => .stuck
  else if n = "STORE_SUBSCR" then
    match st.stack with
    | .str x :: tgt :: v :: stk =>
        if tgt = .obj 0 then
          .next { st with stack := stk, stores := (x, v) :: st.stores }
        else .stuck
    | _ => .stuck
  else if n = "CALL_FUNCTION" then
    match a, st.stack with
    | .num 2, a2 :: a1 :: f :: stk =>
        match f, a1, a2 with
        | .funcLoadName, .frameRef, .str x =>
            match load_name m.frame x with
            | .ok v => .next { st with stack := v :: stk }
            | .error e => .raiseE e { st with stack := stk }
        | _, _, _ => .stuck
    | _, _ => .stuck
  else if n = "END_FINALLY" then
    match st.stack with
    | .excClass _ :: .excVal e :: .traceback :: stk =>
        .raiseE e { st with stack := stk }
    | _ => .stuck
  else .stuck

/-- The machine: execute the items of a sequence in order; labels are
no-ops; a forward jump continues after the jumped-to label; a raised
exception unwinds to the innermost `SETUP_EXCEPT` block (the handlers of
the emitted sequences lie forward of their raise sites), cutting the
stack back to the saved depth and pushing traceback, exception value and
exception type; with no block left the exception propagates out. -/
def exec (m : Machine) (code : List AbsItem) (st : MState) : Outcome :=
  match code with
  | [] => .ok st
  | .label _ :: rest => exec m rest st
  | .instr n a :: rest =>
    match step m n a st with
    | .next st2 => exec m rest st2
    | .jump l st2 => exec m (dropToLabel l rest) st2
    | .raiseE e st2 =>
      match st2.blocks with
      | [] => .raised e
      | (h, d) :: bs =>
          exec m (dropToLabel h rest)
            { st2 with stack := unwindStack e d st2.stack, blocks := bs }
    | .stuck => .stuck
termination_by code.length
decreasing_by
  all_goals simp only [dropToLabel, List.length_drop, List.length_cons]
  all_goals omega

/-- The initial locals of the synthesized rewriting function: argument
`"_[namespace]"` bound to the target object. -/
def nsLoc : Dict := [(nsVar, Val.obj 0)]

/-- A concrete machine used to evaluate the claim-C2 theorem: the
target has exactly one attribute/key `"a"` with value `1`; every other
attribute read raises `AttributeError` and key read raises `KeyError`;
the frame is empty. -/
def machEx : Machine where
  getattr := fun s => if s = "a" then .ok (.int 1) else .error (.attrErr s)
  getitem := fun s => if s = "a" then .ok (.int 1) else .error (.keyErr s)
  frame := PyFrame.mk [] [] []

/-! ## Theorems -/

theorem dlookup_dinsert_self (d : Dict) (n : String) (v : Val) :
    dlookup (dinsert d n v) n = some v := by
  induction d with
  | nil => simp [dinsert, dlookup]
  | cons kv rest ih =>
    obtain ⟨k, w⟩ := kv
    by_cases hk : k = n
    · simp [dinsert, dlookup, hk]
    · simp [dinsert, dlookup, hk, ih]

theorem dlookup_dinsert_other (d : Dict) (n m : String) (v : Val) (h : m ≠ n) :
    dlookup (dinsert d n v) m = dlookup d m := by
  induction d with
  | nil => simp [dinsert, dlookup, Ne.symm h]
  | cons kv rest ih =>
    obtain ⟨k, w⟩ := kv
    by_cases hk : k = n
    · subst hk
      simp [dinsert, dlookup, Ne.symm h]
    · simp only [dinsert, if_neg hk, dlookup]
      by_cases hm : k = m
      · simp [hm]
      · simp [hm, ih]

theorem keys_dinsert (d : Dict) (n : String) (v : Val) :
    (dinsert d n v).map Prod.fst =
      if n ∈ d.map Prod.fst then d.map Prod.fst else d.map Prod.fst ++ [n] := by
  induction d with
  | nil => simp [dinsert]
  | cons kv rest ih =>
    obtain ⟨k, w⟩ := kv
    by_cases hk : k = n
    · simp [dinsert, hk]
    · simp only [dinsert, if_neg hk, List.map_cons, List.mem_cons]
      rw [ih]
      by_cases hmem : n ∈ rest.map Prod.fst
      · simp [hmem]
      · simp [hmem, Ne.symm hk]

theorem dlookup_eq_none_of_not_mem_keys (d : Dict) (n : String)
    (h : n ∉ d.map Prod.fst) : dlookup d n = none := by
  induction d with
  | nil => simp [dlookup]
  | cons kv rest ih =>
    obtain ⟨k, w⟩ := kv
    simp only [List.map_cons, List.mem_cons] at h
    push_neg at h
    simp [dlookup, Ne.symm h.1, ih h.2]

/-- Claim C8: `load_name(frame, name)` returns the value bound to `name`,
looked up first in the frame's local bindings, then its global bindings,
then its built-in bindings, and raises `NameError` exactly when the name
is absent from all three scopes.  (The embedding of `load_name` is a pure
function of the frame, so it performs no mutation by construction.) -/
theorem load_name_resolves (frame : PyFrame) (name : String) :
    (∀ v, dlookup frame.f_locals name = some v → load_name frame name = .ok v)
    ∧ (dlookup frame.f_locals name = none →
        ∀ v, dlookup frame.f_globals name = some v → load_name frame name = .ok v)
    ∧ (dlookup frame.f_locals name = none → dlookup frame.f_globals name = none →
        ∀ v, dlookup frame.f_builtins name = some v → load_name frame name = .ok v)
    ∧ (load_name frame name = .error (.nameErr name) ↔
        dlookup frame.f_locals name = none ∧ dlookup frame.f_globals name = none
          ∧ dlookup frame.f_builtins name = none)
    ∧ (∀ e, load_name frame name = .error e → e = .nameErr name) := by
  refine ⟨?_, ?_, ?_, ?_, ?_⟩
  · intro v hv
    simp [load_name, hv]
  · intro h1 v hv
    simp [load_name, h1, hv]
  · intro h1 h2 v hv
    simp [load_name, h1, h2, hv]
  · constructor
    · intro h
      unfold load_name at h
      rcases hl : dlookup frame.f_locals name with _ | v <;> rw [hl] at h
      · rcases hg : dlookup frame.f_globals name with _ | v <;> rw [hg] at h
        · rcases hb : dlookup frame.f_builtins name with _ | v <;> rw [hb] at h
          · exact ⟨rfl, rfl, rfl⟩
          · simp at h
        · simp at h
      · simp at h
    · rintro ⟨h1, h2, h3⟩
      simp [load_name, h1, h2, h3]
  · intro e he
    unfold load_name at he
    rcases hl : dlookup frame.f_locals name with _ | v <;> rw [hl] at he
    · rcases hg : dlookup frame.f_globals name with _ | v <;> rw [hg] at he
      · rcases hb : dlookup frame.f_builtins name with _ | v <;> rw [hb] at he
        · simpa using he.symm
        · simp at he
      · simp at he
    · simp at he

/-- Claim C8 witness: a concrete frame in which the name is found in the
globals, and another name absent everywhere raising `NameError`. -/
theorem load_name_resolves_check :
    dlookup (PyFrame.mk [] [("g", .int 3)] []).f_locals "g" = none
    ∧ load_name (PyFrame.mk [] [("g", .int 3)] []) "g" = .ok (.int 3)
    ∧ (load_name (PyFrame.mk [] [("g", .int 3)] []) "missing" =
        .error (.nameErr "missing") ↔
        dlookup (PyFrame.mk [] [("g", .int 3)] []).f_locals "missing" = none
        ∧ dlookup (PyFrame.mk [] [("g", .int 3)] []).f_globals "missing" = none
        ∧ dlookup (PyFrame.mk [] [("g", .int 3)] []).f_builtins "missing" = none) :=
  ⟨by decide,
   (load_name_resolves (PyFrame.mk [] [("g", .int 3)] []) "g").2.1 (by decide)
     (.int 3) (by decide),
   (load_name_resolves (PyFrame.mk [] [("g", .int 3)] []) "missing").2.2.2.1⟩

/-- Claim C6: whenever `dont_execute` is set and `must_execute` is not,
`__enter__` injects the `_exit_context` callback (which raises the
`_ExitContext` sentinel) for the context frame, and no instruction of the
block body ever executes: the final state is exactly the entry state, so
none of the body's side effects are observed (and the sentinel is not
seen by the caller). -/
theorem withhack_skips_body {S : Type} (flags : HackFlags)
    (body : List (S → S)) (s : S)
    (hd : flags.dont_execute = true) (hm : flags.must_execute = false) :
    withhack_enter flags = [exit_context]
    ∧ exit_context () = some Exc.exitCtx
    ∧ runWithBlock flags body s = (s, none) := by
  refine ⟨?_, rfl, ?_⟩
  · simp [withhack_enter, hd, hm]
  · simp [runWithBlock, engineRunBlock, withhack_enter, hd, hm, firstExc,
      exit_context, classOf, withhack_exit]

/-- Claim C6 witness: a body that increments a counter is skipped; the
counter stays `0`. -/
theorem withhack_skips_body_check :
    (HackFlags.mk true false).dont_execute = true
    ∧ (HackFlags.mk true false).must_execute = false
    ∧ runWithBlock (HackFlags.mk true false) [fun n => n + 1] (0 : Nat)
        = (0, none) := by
  refine ⟨rfl, rfl, ?_⟩
  exact (withhack_skips_body (HackFlags.mk true false) [fun n => n + 1] 0
    rfl rfl).2.2

/-- Claim C7: `WithHack.__exit__` suppresses an exception exactly when
its type is the `_ExitContext` sentinel; the no-exception case and every
other exception type are passed through unchanged (return value
`False`), so the sentinel never surfaces and user exceptions are never
masked. -/
theorem withhack_exit_suppression (exc_type : Option ExcClass) :
    (withhack_exit exc_type = true ↔ exc_type = some ExcClass.exitContext)
    ∧ withhack_exit none = false
    ∧ (∀ c, c ≠ ExcClass.exitContext → withhack_exit (some c) = false) := by
  refine ⟨?_, rfl, ?_⟩
  · cases exc_type with
    | none => simp [withhack_exit]
    | some c => cases c <;> simp [withhack_exit]
  · intro c hc
    cases c <;> simp [withhack_exit]
    exact absurd rfl hc

/-- Claim C3 counterexample: a `LOAD_GLOBAL` of a name that is not among
the parameter names but is among the existing locals is left unchanged
by `_change_lookups`, while the claim says it would be forced to
name-indexed addressing (`LOAD_NAME`). -/
theorem change_lookups_cex :
    change_lookup_instr [] ["g"] (.instr "LOAD_GLOBAL" (.name "g"))
        = .instr "LOAD_GLOBAL" (.name "g")
    ∧ (AbsItem.instr "LOAD_GLOBAL" (.name "g"))
        ≠ .instr "LOAD_NAME" (.name "g") := by
  constructor
  · rfl
  · decide

/-- Claim C3 amended: for every load/store/delete instruction,
a name among the declared parameter names is forced to local-slot
(`_FAST`) addressing; otherwise local-slot and closure-cell
(`_FAST`/`_DEREF`) forms become name-indexed (`_NAME`) when the name is
among the existing locals and local-slot when not; name-indexed and
global forms not in the parameter names are left unchanged, and
`DELETE_DEREF` is never rewritten (the delete branch only matches
`DELETE_FAST`/`DELETE_NAME`/`DELETE_GLOBAL`). -/
theorem change_lookups_amended (args locals_ : List String)
    (code : List AbsItem) :
    change_lookups args locals_ code
      = code.map (changeLookupAmended args locals_) := by
  unfold change_lookups
  apply List.map_congr_left
  intro it _
  cases it with
  | label l => rfl
  | instr n a =>
    cases a with
    | name x =>
      simp only [change_lookup_instr, changeLookupAmended]
      split_ifs <;> first
      | rfl
      | (casesm* _ ∨ _ <;> simp_all)
    | noArg => rfl
    | const v => rfl
    | target l => rfl
    | num k => rfl
    | cmpExcMatch => rfl

/-- Claim C4: `_run_as_clause(value)` on a one-instruction `STORE_FAST`
as-clause injects `{name: value}` into the context frame's locals
without the general replay machinery; on a one-instruction `POP_TOP` it
is a no-op; and in the general multi-instruction path it fails with
`NotImplementedError` (the spec's *UnsupportedTarget*), with no partial
result, whenever the as-clause contains a `STORE_FAST` instruction. -/
theorem run_as_clause_spec (fk : List String) (n : String) (v : Val)
    (frame : PyFrame) (clause : List AbsItem)
    (hlen : 2 ≤ clause.length) (hsf : containsStoreFast clause = true) :
    (run_as_clause fk [.instr "STORE_FAST" (.name n)] v = .setLocals n v
      ∧ applyAsResult (.setLocals n v) frame
          = .ok { frame with f_locals := dinsert frame.f_locals n v })
    ∧ (run_as_clause fk [.instr "POP_TOP" .noArg] v = .noop
      ∧ applyAsResult .noop frame = .ok frame)
    ∧ (run_as_clause fk clause v = .unsupported
      ∧ applyAsResult .unsupported frame
          = .error (.notImpl "Cannot handle this as clause")) := by
  refine ⟨⟨rfl, rfl⟩, ⟨rfl, rfl⟩, ?_, rfl⟩
  match clause, hlen with
  | a :: b :: rest, _ =>
    simp [run_as_clause, hsf]

/-- Claim C4 witness: a two-instruction as-clause containing a
`STORE_FAST` (as produced by an `as (x, y)` tuple target) fails with
`NotImplementedError`. -/
theorem run_as_clause_spec_check :
    2 ≤ ([.instr "UNPACK_SEQUENCE" (.num 2),
          .instr "STORE_FAST" (.name "t")] : List AbsItem).length
    ∧ containsStoreFast [.instr "UNPACK_SEQUENCE" (.num 2),
          .instr "STORE_FAST" (.name "t")] = true
    ∧ run_as_clause [] [.instr "UNPACK_SEQUENCE" (.num 2),
          .instr "STORE_FAST" (.name "t")] (.int 1) = .unsupported :=
  ⟨by decide, by decide,
   ((run_as_clause_spec [] "x" (.int 1) (PyFrame.mk [] [] [])
      [.instr "UNPACK_SEQUENCE" (.num 2), .instr "STORE_FAST" (.name "t")]
      (by decide) (by decide)).2.2.1)⟩

theorem captureModifiedAux_no_self (selfVal : Val) (pre : Dict)
    (post : List (String × Val)) (acc : Dict)
    (hacc : ∀ m, dlookup acc m ≠ some selfVal) :
    ∀ m, dlookup (captureModifiedAux selfVal pre post acc) m ≠ some selfVal := by
  induction post generalizing acc with
  | nil => exact hacc
  | cons kv rest ih =>
    obtain ⟨n, v⟩ := kv
    by_cases hv : v = selfVal
    · simpa [captureModifiedAux, hv] using ih acc hacc
    · have hins : ∀ m, dlookup (dinsert acc n v) m ≠ some selfVal := by
        intro m
        by_cases hm : m = n
        · subst hm
          rw [dlookup_dinsert_self]
          intro hcontra
          exact hv (Option.some.inj hcontra)
        · rw [dlookup_dinsert_other acc n m v hm]
          exact hacc m
      rcases hp : dlookup pre n with _ | w
      · simpa [captureModifiedAux, hv, hp] using ih (dinsert acc n v) hins
      · by_cases hw : w = v
        · simpa [captureModifiedAux, hv, hp, hw] using ih acc hacc
        · simpa [captureModifiedAux, hv, hp, hw] using ih (dinsert acc n v) hins

/-- Claim C9: the mapping reported by `CaptureModifiedLocals.__exit__`
never contains a binding whose value is the hack instance itself: such
bindings (for example the `as` target) are filtered out even when newly
created inside the block. -/
theorem capture_modified_excludes_self (selfVal : Val) (pre post : Dict)
    (n : String) :
    (dlookup (captureModified selfVal pre post) n = some selfVal) = False :=
  eq_false
    (captureModifiedAux_no_self selfVal pre post []
      (fun m => by simp [dlookup]) n)

theorem dlookup_dictUpdate (cap : Dict) (base : Dict) (n : String)
    (hnd : (cap.map Prod.fst).Nodup) :
    dlookup (dictUpdate base cap) n =
      match dlookup cap n with
      | some v => some v
      | none => dlookup base n := by
  induction cap generalizing base with
  | nil => simp [dictUpdate, dlookup]
  | cons kv rest ih =>
    obtain ⟨k, v⟩ := kv
    simp only [List.map_cons, List.nodup_cons] at hnd
    by_cases hk : k = n
    · subst hk
      have hrest : dlookup rest k = none :=
        dlookup_eq_none_of_not_mem_keys rest k hnd.1
      simp only [dictUpdate, dlookup, if_pos rfl]
      rw [ih (dinsert base k v) hnd.2, hrest, dlookup_dinsert_self]
      simp
    · simp only [dictUpdate, dlookup, if_neg hk]
      rw [ih (dinsert base k v) hnd.2,
        dlookup_dinsert_other base k n v (Ne.symm hk)]

/-- Claim C10: `xkwargs` invokes the wrapped callable on the constructor
keyword dictionary updated with the block-captured locals, so a captured
local whose name coincides with a constructor keyword overrides it,
while distinct constructor keywords pass through unchanged. -/
theorem xkwargs_overrides (func : Dict → Val) (ctorKwds cap : Dict)
    (n : String) (hnd : (cap.map Prod.fst).Nodup) :
    xkwargs_exit func ctorKwds cap = func (dictUpdate ctorKwds cap)
    ∧ dlookup (dictUpdate ctorKwds cap) n =
        match dlookup cap n with
        | some v => some v
        | none => dlookup ctorKwds n :=
  ⟨rfl, dlookup_dictUpdate cap ctorKwds n hnd⟩

/-- Claim C10 witness: the docstring scenario `xkwargs(calculate, b=2)`
with block `a = 5`; also a shared name, where the captured value wins. -/
theorem xkwargs_overrides_check :
    (([("a", Val.int 5), ("b", Val.int 3)].map Prod.fst).Nodup
      ∧ dlookup (dictUpdate [("b", Val.int 2)] [("a", Val.int 5), ("b", Val.int 3)]) "b"
          = some (Val.int 3)
      ∧ dlookup (dictUpdate [("b", Val.int 2)] [("a", Val.int 5), ("b", Val.int 3)]) "a"
          = some (Val.int 5)) := by
  refine ⟨by decide, ?_, ?_⟩
  · rw [(xkwargs_overrides (fun _ => Val.pynone) [("b", Val.int 2)]
      [("a", Val.int 5), ("b", Val.int 3)] "b" (by decide)).2]
    decide
  · rw [(xkwargs_overrides (fun _ => Val.pynone) [("b", Val.int 2)]
      [("a", Val.int 5), ("b", Val.int 3)] "a" (by decide)).2]
    decide

theorem captureLocalsAux_lookup (fl : Dict) (bc : List AbsItem) (acc d : Dict)
    (h : captureLocalsAux fl bc acc = some d) (n : String) :
    dlookup d n = if n ∈ storedNames bc then dlookup fl n else dlookup acc n := by
  induction bc generalizing acc with
  | nil =>
    simp only [captureLocalsAux, Option.some.injEq] at h
    subst h
    simp [storedNames]
  | cons it rest ih =>
    cases it with
    | label l =>
      simp only [captureLocalsAux] at h
      simp only [storedNames]
      exact ih acc h
    | instr m a =>
      cases a with
      | name x =>
        by_cases hm : m = "STORE_FAST" ∨ m = "STORE_NAME"
        · rcases hvx : dlookup fl x with _ | v
          · simp [captureLocalsAux, if_pos hm, hvx] at h
          · simp only [captureLocalsAux, if_pos hm, hvx] at h
            have hrec := ih (dinsert acc x v) h
            simp only [storedNames, if_pos hm, List.mem_cons]
            by_cases hn : n ∈ storedNames rest
            · simpa [hn] using hrec
            · by_cases hnx : n = x
              · subst hnx
                simp only [hn, if_false, dlookup_dinsert_self] at hrec
                simp [hn, hrec, hvx]
              · simp only [hn, if_false,
                  dlookup_dinsert_other acc x n v hnx] at hrec
                simp [hn, hnx, hrec]
        · simp only [captureLocalsAux, if_neg hm] at h
          simp only [storedNames, if_neg hm]
          exact ih acc h
      | noArg =>
        simp only [captureLocalsAux] at h
        simp only [storedNames]
        exact ih acc h
      | const v =>
        simp only [captureLocalsAux] at h
        simp only [storedNames]
        exact ih acc h
      | target l =>
        simp only [captureLocalsAux] at h
        simp only [storedNames]
        exact ih acc h
      | num k =>
        simp only [captureLocalsAux] at h
        simp only [storedNames]
        exact ih acc h
      | cmpExcMatch =>
        simp only [captureLocalsAux] at h
        simp only [storedNames]
        exact ih acc h

theorem notMem_append_decide (y x : String) (K : List String) :
    (decide (y ∉ K ++ [x])) = ((y != x) && decide (y ∉ K)) := by
  by_cases h1 : y ∈ K <;> by_cases h2 : y = x <;>
    simp [h1, h2, List.mem_append]

theorem captureLocalsAux_keys (fl : Dict) (bc : List AbsItem) (acc d : Dict)
    (h : captureLocalsAux fl bc acc = some d) :
    d.map Prod.fst = acc.map Prod.fst
      ++ dedupFirst ((storedNames bc).filter
          (fun y => decide (y ∉ acc.map Prod.fst))) := by
  induction bc generalizing acc with
  | nil =>
    simp only [captureLocalsAux, Option.some.injEq] at h
    subst h
    simp [storedNames, dedupFirst]
  | cons it rest ih =>
    cases it with
    | label l =>
      simp only [captureLocalsAux] at h
      simp only [storedNames]
      exact ih acc h
    | instr m a =>
      cases a with
      | name x =>
        by_cases hm : m = "STORE_FAST" ∨ m = "STORE_NAME"
        · rcases hvx : dlookup fl x with _ | v
          · simp [captureLocalsAux, if_pos hm, hvx] at h
          · simp only [captureLocalsAux, if_pos hm, hvx] at h
            have hrec := ih (dinsert acc x v) h
            rw [keys_dinsert] at hrec
            simp only [storedNames, if_pos hm, List.filter_cons]
            by_cases hx : x ∈ acc.map Prod.fst
            · rw [if_pos hx] at hrec
              simpa [hx] using hrec
            · rw [if_neg hx] at hrec
              have hfeq : (storedNames rest).filter
                    (fun y => decide (y ∉ acc.map Prod.fst ++ [x]))
                  = (storedNames rest).filter
                      (fun y => (y != x) && decide (y ∉ acc.map Prod.fst)) :=
                List.filter_congr
                  (fun y _ => notMem_append_decide y x (acc.map Prod.fst))
              rw [hfeq] at hrec
              rw [if_pos (by simp [hx]), dedupFirst, List.filter_filter, hrec]
              simp
        · simp only [captureLocalsAux, if_neg hm] at h
          simp only [storedNames, if_neg hm]
          exact ih acc h
      | noArg =>
        simp only [captureLocalsAux] at h
        simp only [storedNames]
        exact ih acc h
      | const v =>
        simp only [captureLocalsAux] at h
        simp only [storedNames]
        exact ih acc h
      | target l =>
        simp only [captureLocalsAux] at h
        simp only [storedNames]
        exact ih acc h
      | num k =>
        simp only [captureLocalsAux] at h
        simp only [storedNames]
        exact ih acc h
      | cmpExcMatch =>
        simp only [captureLocalsAux] at h
        simp only [storedNames]
        exact ih acc h

/-- Claim C5: for a block of simple local assignments (a captured
bytecode of plain instructions), `CaptureLocals.locals` maps exactly the
names stored by the block (the `STORE_FAST`/`STORE_NAME` arguments) to
the value bound to each name in the context frame at block exit, and
nothing else; the keys appear in first-assignment order (the ordered
variant `CaptureOrderedLocals` shares this computation); and capturing
`x = 7; y = 8` yields `{"x": 7, "y": 8}` as the ordered pairs
`[("x", 7), ("y", 8)]`. -/
theorem capture_locals_spec (bc : List AbsItem) (fl : Dict) (d : Dict)
    (n : String)
    (_hitems : ∀ it ∈ bc, isInstrItem it = true)
    (hcap : captureLocals fl bc = some d) :
    (dlookup d n = if n ∈ storedNames bc then dlookup fl n else none)
    ∧ d.map Prod.fst = dedupFirst (storedNames bc)
    ∧ captureLocals [("x", .int 7), ("y", .int 8)] demoAssignBc
        = some [("x", .int 7), ("y", .int 8)] := by
  refine ⟨?_, ?_, by decide⟩
  · have hx := captureLocalsAux_lookup fl bc [] d hcap n
    simpa [dlookup] using hx
  · have hk := captureLocalsAux_keys fl bc [] d hcap
    simpa using hk

/-- Claim C5 witness: the `x = 7; y = 8` scenario evaluated through the
theorem. -/
theorem capture_locals_spec_check :
    (∀ it ∈ demoAssignBc, isInstrItem it = true)
    ∧ captureLocals [("x", Val.int 7), ("y", Val.int 8)] demoAssignBc
        = some [("x", Val.int 7), ("y", Val.int 8)]
    ∧ dlookup [("x", Val.int 7), ("y", Val.int 8)] "x"
        = (if "x" ∈ storedNames demoAssignBc
           then dlookup [("x", Val.int 7), ("y", Val.int 8)] "x" else none)
    ∧ ([("x", Val.int 7), ("y", Val.int 8)] : Dict).map Prod.fst
        = dedupFirst (storedNames demoAssignBc) := by
  refine ⟨by decide, by decide, ?_, ?_⟩
  · exact (capture_locals_spec demoAssignBc
      [("x", Val.int 7), ("y", Val.int 8)] [("x", Val.int 7), ("y", Val.int 8)]
      "x" (by decide) (by decide)).1
  · exact (capture_locals_spec demoAssignBc
      [("x", Val.int 7), ("y", Val.int 8)] [("x", Val.int 7), ("y", Val.int 8)]
      "x" (by decide) (by decide)).2.1

theorem offIndex_eq_zero (ss : List Nat) :
    ∀ a off, off ≤ a → offIndex ss a off = 0 := by
  induction ss with
  | nil => intro a off _; rfl
  | cons s ss ih =>
    intro a off h
    have h2 : ¬(a + s < off) := by omega
    simp only [offIndex, if_neg h2, ih (a + s) off (by omega)]

theorem offIndex_mono (ss : List Nat) :
    ∀ a o1 o2, o1 ≤ o2 → offIndex ss a o1 ≤ offIndex ss a o2 := by
  induction ss with
  | nil => intro a o1 o2 _; exact Nat.le_refl _
  | cons s ss ih =>
    intro a o1 o2 h
    simp only [offIndex]
    have hrec := ih (a + s) o1 o2 h
    by_cases h1 : a + s < o1
    · rw [if_pos h1, if_pos (by omega)]
      omega
    · rw [if_neg h1]
      by_cases h2 : a + s < o2
      · rw [if_pos h2]; omega
      · rw [if_neg h2]; omega

theorem offIndex_lt_length (ss : List Nat) :
    ∀ a off, ss ≠ [] → off ≤ a + ss.sum → offIndex ss a off < ss.length := by
  induction ss with
  | nil => intro a off hne _; exact absurd rfl hne
  | cons s ss ih =>
    intro a off _ h
    cases ss with
    | nil =>
      have h2 : ¬(a + s < off) := by
        simp only [List.sum_cons, List.sum_nil] at h
        omega
      simp [offIndex, h2]
    | cons t ts =>
      have hrec := ih (a + s) off (by simp)
        (by simp only [List.sum_cons] at h ⊢; omega)
      simp only [offIndex, List.length_cons] at hrec ⊢
      by_cases h1 : a + s < off
      · rw [if_pos h1]; omega
      · rw [if_neg h1]; omega

theorem offIndex_round (ss : List Nat) :
    ∀ a off i, boundAt ss i + a < off → off < boundAt ss (i + 1) + a →
    offIndex ss a off = i := by
  induction ss with
  | nil =>
    intro a off i h1 h2
    simp only [boundAt] at h1 h2
    cases i <;> simp only [boundAt] at h1 h2 <;> omega
  | cons s ss ih =>
    intro a off i h1 h2
    cases i with
    | zero =>
      simp only [boundAt] at h1 h2
      have hno : ¬(a + s < off) := by omega
      simp only [offIndex, if_neg hno,
        offIndex_eq_zero ss (a + s) off (by omega)]
    | succ j =>
      simp only [boundAt] at h1 h2
      have hyes : a + s < off := by omega
      simp only [offIndex, if_pos hyes,
        ih (a + s) off j (by omega) (by omega)]
      omega

theorem lastAt_of_lt (bc : List AbsItem) :
    ∀ i a tgt acc, tgt < a → lastAt bc i a tgt acc = acc := by
  induction bc with
  | nil => intros; rfl
  | cons b rest ih =>
    intro i a tgt acc h
    have hne : ¬(a = tgt) := by omega
    cases b with
    | label l =>
      simp only [lastAt, if_neg hne]
      exact ih _ _ _ _ h
    | instr nm ar =>
      simp only [lastAt, if_neg hne]
      exact ih _ _ _ _ (by omega)

theorem instrCount_label (l : Nat) (rest : List AbsItem) :
    instrCount (.label l :: rest) = instrCount rest := rfl

theorem instrCount_instr (n : String) (a : Arg) (rest : List AbsItem) :
    instrCount (.instr n a :: rest) = instrCount rest + 1 := by
  simp [instrCount, instrsOf]

theorem lastAt_found (bc : List AbsItem) :
    ∀ i a acc t, t < instrCount bc →
    lastAt bc i a (a + t) acc = some (i + posInstr bc t) := by
  induction bc with
  | nil =>
    intro i a acc t ht
    simp [instrCount, instrsOf] at ht
  | cons b rest ih =>
    intro i a acc t ht
    cases b with
    | label l =>
      rw [instrCount_label] at ht
      simp only [lastAt, posInstr]
      rw [ih (i + 1) a _ t ht]
      congr 1
      omega
    | instr nm ar =>
      rw [instrCount_instr] at ht
      cases t with
      | zero =>
        simp only [lastAt, posInstr]
        rw [if_pos (by omega)]
        rw [lastAt_of_lt rest (i + 1) (a + 1) (a + 0) _ (by omega)]
        simp
      | succ j =>
        simp only [lastAt, posInstr]
        rw [if_neg (by omega)]
        have ha : a + (j + 1) = (a + 1) + j := by omega
        rw [ha, ih (i + 1) (a + 1) _ j (by omega)]
        congr 1
        omega

theorem instrsOf_take (bc : List AbsItem) :
    ∀ t, t ≤ instrCount bc →
    instrsOf (bc.take (posInstr bc t)) = (instrsOf bc).take t := by
  induction bc with
  | nil => intro t _; simp [posInstr, instrsOf]
  | cons b rest ih =>
    intro t ht
    cases b with
    | label l =>
      rw [instrCount_label] at ht
      simp only [posInstr, List.take_succ_cons, instrsOf]
      exact ih t ht
    | instr nm ar =>
      rw [instrCount_instr] at ht
      cases t with
      | zero => simp [posInstr, instrsOf]
      | succ j =>
        simp only [posInstr, List.take_succ_cons, instrsOf, List.take_succ_cons]
        rw [ih j (by omega)]

theorem instrsOf_slice (bc : List AbsItem) :
    ∀ s t, s ≤ t → t ≤ instrCount bc →
    instrsOf ((bc.take (posInstr bc t)).drop (posInstr bc s))
      = ((instrsOf bc).drop s).take (t - s) := by
  induction bc with
  | nil =>
    intro s t hst ht
    simp only [instrCount, instrsOf] at ht
    simp [posInstr, instrsOf]
  | cons b rest ih =>
    intro s t hst ht
    cases b with
    | label l =>
      rw [instrCount_label] at ht
      simp only [posInstr, List.take_succ_cons, List.drop_succ_cons, instrsOf]
      exact ih s t hst ht
    | instr nm ar =>
      rw [instrCount_instr] at ht
      cases t with
      | zero =>
        have hs0 : s = 0 := Nat.le_zero.mp hst
        subst hs0
        simp [posInstr, instrsOf]
      | succ j =>
        cases s with
        | zero =>
          simp only [posInstr, List.take_succ_cons, List.drop_zero, instrsOf]
          rw [instrsOf_take rest j (by omega)]
          simp
        | succ r =>
          simp only [posInstr, List.take_succ_cons, List.drop_succ_cons,
            instrsOf]
          rw [ih r j (by omega) (by omega)]
          simp only [List.drop_succ_cons, Nat.succ_sub_succ]

/-- Claim C1: for every frame and every pair of raw byte offsets
`start ≤ stop` within the frame's code, `extract_code` returns an
abstract sequence whose instructions are exactly the contiguous run of
instructions between the two mapped concrete indices — none duplicated,
none dropped — so its instruction count equals the difference of the two
mapped indices; and a raw offset falling strictly between two
instruction boundaries is mapped (rounded down) to the index of the
enclosing instruction.  The hypothesis `instrCount bc = cs.length` is
the source's "instructions map one-to-one" assumption between
`ConcreteBytecode` and its `to_bytecode()` form (asserted in the
source), and a code object always holds at least one instruction. -/
theorem extract_code_spec (cs : List ConcreteInstr) (bc : List AbsItem)
    (start stop off i : Nat)
    (hcorr : instrCount bc = cs.length)
    (hpos : 0 < cs.length)
    (h1 : start ≤ stop) (h2 : stop ≤ sizeTotal cs)
    (hoff1 : boundAt (cs.map (·.size)) i < off)
    (hoff2 : off < boundAt (cs.map (·.size)) (i + 1)) :
    instrsOf (extract_code cs bc start stop)
      = ((instrsOf bc).drop (byteToIndex cs start)).take
          (byteToIndex cs stop - byteToIndex cs start)
    ∧ instrCount (extract_code cs bc start stop)
        = byteToIndex cs stop - byteToIndex cs start
    ∧ byteToIndex cs off = i := by
  have hnil : cs.map (·.size) ≠ [] := by
    cases cs with
    | nil => simp at hpos
    | cons c cst => simp
  have hstopc : byteToIndex cs stop < cs.length := by
    have := offIndex_lt_length (cs.map (·.size)) 0 stop hnil
      (by simpa [sizeTotal] using h2)
    simpa [byteToIndex] using this
  have hmono : byteToIndex cs start ≤ byteToIndex cs stop := by
    have := offIndex_mono (cs.map (·.size)) 0 start stop h1
    simpa [byteToIndex] using this
  have hstartc : byteToIndex cs start < cs.length := by omega
  have hfind1 : lastAt bc 0 0 (byteToIndex cs start) none
      = some (posInstr bc (byteToIndex cs start)) := by
    have := lastAt_found bc 0 0 none (byteToIndex cs start)
      (by omega)
    simpa using this
  have hfind2 : lastAt bc 0 0 (byteToIndex cs stop) none
      = some (posInstr bc (byteToIndex cs stop)) := by
    have := lastAt_found bc 0 0 none (byteToIndex cs stop)
      (by omega)
    simpa using this
  have hxtr : extract_code cs bc start stop
      = (bc.take (posInstr bc (byteToIndex cs stop))).drop
          (posInstr bc (byteToIndex cs start)) := by
    simp [extract_code, hfind1, hfind2]
  have hslice := instrsOf_slice bc (byteToIndex cs start)
    (byteToIndex cs stop) hmono (by omega)
  refine ⟨?_, ?_, ?_⟩
  · rw [hxtr]
    exact hslice
  · rw [instrCount, hxtr, hslice]
    have hlen1 : (instrsOf bc).length = cs.length := hcorr
    simp only [List.length_take, List.length_drop, hlen1]
    omega
  · have := offIndex_round (cs.map (·.size)) 0 off i (by omega) (by omega)
    simpa [byteToIndex] using this

/-- Claim C1 witness: a three-instruction code object (each instruction
two bytes wide) interleaved with a label; slicing from offset 2 to
offset 4 yields exactly the middle instruction, and offset 3 (strictly
inside the middle instruction) rounds down to concrete index 1. -/
theorem extract_code_spec_check :
    instrCount [AbsItem.label 5,
        .instr "LOAD_CONST" (.const (.int 7)),
        .instr "STORE_FAST" (.name "x"),
        .instr "RETURN_VALUE" .noArg]
      = ([ConcreteInstr.mk "LOAD_CONST" 2, .mk "STORE_FAST" 2,
          .mk "RETURN_VALUE" 2]).length
    ∧ (2 : Nat) ≤ 4
    ∧ (4 : Nat) ≤ sizeTotal [ConcreteInstr.mk "LOAD_CONST" 2,
        .mk "STORE_FAST" 2, .mk "RETURN_VALUE" 2]
    ∧ boundAt (([ConcreteInstr.mk "LOAD_CONST" 2, .mk "STORE_FAST" 2,
        .mk "RETURN_VALUE" 2]).map (·.size)) 1 < 3
    ∧ instrsOf (extract_code
        [ConcreteInstr.mk "LOAD_CONST" 2, .mk "STORE_FAST" 2,
         .mk "RETURN_VALUE" 2]
        [AbsItem.label 5, .instr "LOAD_CONST" (.const (.int 7)),
         .instr "STORE_FAST" (.name "x"), .instr "RETURN_VALUE" .noArg]
        2 4)
      = [.instr "LOAD_CONST" (.const (.int 7))]
    ∧ byteToIndex [ConcreteInstr.mk "LOAD_CONST" 2, .mk "STORE_FAST" 2,
        .mk "RETURN_VALUE" 2] 3 = 1 := by
  have hmain := extract_code_spec
    [ConcreteInstr.mk "LOAD_CONST" 2, .mk "STORE_FAST" 2,
     .mk "RETURN_VALUE" 2]
    [AbsItem.label 5, .instr "LOAD_CONST" (.const (.int 7)),
     .instr "STORE_FAST" (.name "x"), .instr "RETURN_VALUE" .noArg]
    2 4 3 1 (by decide) (by decide) (by decide) (by decide)
    (by decide) (by decide)
  refine ⟨by decide, by decide, by decide, by decide, ?_, hmain.2.2⟩
  rw [hmain.1]
  decide

theorem dropToLabel_cons_label (l m : Nat) (rest : List AbsItem) :
    dropToLabel l (.label m :: rest)
      = if m = l then rest else dropToLabel l rest := by
  by_cases h : m = l
  · subst h
    simp [dropToLabel, List.findIdx_cons]
  · have hbe : (AbsItem.label m == AbsItem.label l) = false := by
      simp [h]
    simp [dropToLabel, List.findIdx_cons, hbe, h, List.drop_succ_cons]

theorem dropToLabel_cons_instr (l : Nat) (n : String) (a : Arg)
    (rest : List AbsItem) :
    dropToLabel l (.instr n a :: rest) = dropToLabel l rest := by
  have hbe : (AbsItem.instr n a == AbsItem.label l) = false := by
    simp
  simp [dropToLabel, List.findIdx_cons, hbe, List.drop_succ_cons]

theorem step_load_const (m : Machine) (v : Val) (st : MState) :
    step m "LOAD_CONST" (.const v) st
      = .next { st with stack := v :: st.stack } := rfl

theorem step_load_fast (m : Machine) (x : String) (v : Val) (st : MState)
    (h : dlookup st.locals x = some v) :
    step m "LOAD_FAST" (.name x) st
      = .next { st with stack := v :: st.stack } := by
  show (match dlookup st.locals x with
        | some w => StepRes.next { st with stack := w :: st.stack }
        | none => StepRes.stuck) = _
  rw [h]

theorem step_store_fast (m : Machine) (x : String) (v : Val)
    (stk : List Val) (loc : Dict) (bl : List (Nat × Nat))
    (σ : List (String × Val)) :
    step m "STORE_FAST" (.name x) (MState.mk (v :: stk) loc bl σ)
      = .next (MState.mk stk (dinsert loc x v) bl σ) := rfl

theorem step_dup_top (m : Machine) (v : Val) (stk : List Val) (loc : Dict)
    (bl : List (Nat × Nat)) (σ : List (String × Val)) :
    step m "DUP_TOP" .noArg (MState.mk (v :: stk) loc bl σ)
      = .next (MState.mk (v :: v :: stk) loc bl σ) := rfl

theorem step_pop_top (m : Machine) (v : Val) (stk : List Val) (loc : Dict)
    (bl : List (Nat × Nat)) (σ : List (String × Val)) :
    step m "POP_TOP" .noArg (MState.mk (v :: stk) loc bl σ)
      = .next (MState.mk stk loc bl σ) := rfl

theorem step_setup_except (m : Machine) (l : Nat) (st : MState) :
    step m "SETUP_EXCEPT" (.target l) st
      = .next { st with blocks := (l, st.stack.length) :: st.blocks } := rfl

theorem step_pop_block (m : Machine) (stk : List Val) (loc : Dict)
    (b : Nat × Nat) (bl : List (Nat × Nat)) (σ : List (String × Val)) :
    step m "POP_BLOCK" .noArg (MState.mk stk loc (b :: bl) σ)
      = .next (MState.mk stk loc bl σ) := rfl

theorem step_pop_except (m : Machine) (st : MState) :
    step m "POP_EXCEPT" .noArg st = .next st := rfl

theorem step_jump_forward (m : Machine) (l : Nat) (st : MState) :
    step m "JUMP_FORWARD" (.target l) st = .jump l st := rfl

theorem step_pjif (m : Machine) (l : Nat) (b : Bool) (stk : List Val)
    (loc : Dict) (bl : List (Nat × Nat)) (σ : List (String × Val)) :
    step m "POP_JUMP_IF_FALSE" (.target l) (MState.mk (.bool b :: stk) loc bl σ)
      = if b then .next (MState.mk stk loc bl σ)
        else .jump l (MState.mk stk loc bl σ) := rfl

theorem step_pjif_true (m : Machine) (l : Nat) (stk : List Val)
    (loc : Dict) (bl : List (Nat × Nat)) (σ : List (String × Val)) :
    step m "POP_JUMP_IF_FALSE" (.target l)
        (MState.mk (.bool true :: stk) loc bl σ)
      = .next (MState.mk stk loc bl σ) := rfl

theorem step_pjif_false (m : Machine) (l : Nat) (stk : List Val)
    (loc : Dict) (bl : List (Nat × Nat)) (σ : List (String × Val)) :
    step m "POP_JUMP_IF_FALSE" (.target l)
        (MState.mk (.bool false :: stk) loc bl σ)
      = .jump l (MState.mk stk loc bl σ) := rfl

theorem step_compare_exc (m : Machine) (c1 c2 : ExcClass) (stk : List Val)
    (loc : Dict) (bl : List (Nat × Nat)) (σ : List (String × Val)) :
    step m "COMPARE_OP" .cmpExcMatch
        (MState.mk (.excClass c2 :: .excClass c1 :: stk) loc bl σ)
      = .next (MState.mk (.bool (decide (c1 = c2)) :: stk) loc bl σ) := rfl

theorem step_load_attr (m : Machine) (x : String) (stk : List Val)
    (loc : Dict) (bl : List (Nat × Nat)) (σ : List (String × Val)) :
    step m "LOAD_ATTR" (.name x) (MState.mk (.obj 0 :: stk) loc bl σ)
      = match m.getattr x with
        | .ok v => .next (MState.mk (v :: stk) loc bl σ)
        | .error e => .raiseE e (MState.mk stk loc bl σ) := rfl

theorem step_binary_subscr (m : Machine) (x : String) (stk : List Val)
    (loc : Dict) (bl : List (Nat × Nat)) (σ : List (String × Val)) :
    step m "BINARY_SUBSCR" .noArg
        (MState.mk (.str x :: .obj 0 :: stk) loc bl σ)
      = match m.getitem x with
        | .ok v => .next (MState.mk (v :: stk) loc bl σ)
        | .error e => .raiseE e (MState.mk stk loc bl σ) := rfl

theorem step_store_attr (m : Machine) (x : String) (v : Val)
    (stk : List Val) (loc : Dict) (bl : List (Nat × Nat))
    (σ : List (String × Val)) :
    step m "STORE_ATTR" (.name x) (MState.mk (.obj 0 :: v :: stk) loc bl σ)
      = .next (MState.mk stk loc bl ((x, v) :: σ)) := rfl

theorem step_store_subscr (m : Machine) (x : String) (v : Val)
    (stk : List Val) (loc : Dict) (bl : List (Nat × Nat))
    (σ : List (String × Val)) :
    step m "STORE_SUBSCR" .noArg
        (MState.mk (.str x :: .obj 0 :: v :: stk) loc bl σ)
      = .next (MState.mk stk loc bl ((x, v) :: σ)) := rfl

theorem step_call_ln (m : Machine) (x : String) (stk : List Val)
    (loc : Dict) (bl : List (Nat × Nat)) (σ : List (String × Val)) :
    step m "CALL_FUNCTION" (.num 2)
        (MState.mk (.str x :: .frameRef :: .funcLoadName :: stk) loc bl σ)
      = match load_name m.frame x with
        | .ok v => .next (MState.mk (v :: stk) loc bl σ)
        | .error e => .raiseE e (MState.mk stk loc bl σ) := rfl

theorem step_end_finally (m : Machine) (c : ExcClass) (e : Exc)
    (stk : List Val) (loc : Dict) (bl : List (Nat × Nat))
    (σ : List (String × Val)) :
    step m "END_FINALLY" .noArg
        (MState.mk (.excClass c :: .excVal e :: .traceback :: stk) loc bl σ)
      = .raiseE e (MState.mk stk loc bl σ) := rfl

theorem step_load_attr_ok (m : Machine) (x : String) (v : Val)
    (stk : List Val) (loc : Dict) (bl : List (Nat × Nat))
    (σ : List (String × Val)) (h : m.getattr x = .ok v) :
    step m "LOAD_ATTR" (.name x) (MState.mk (.obj 0 :: stk) loc bl σ)
      = .next (MState.mk (v :: stk) loc bl σ) := by
  rw [step_load_attr, h]

theorem step_load_attr_err (m : Machine) (x : String) (e : Exc)
    (stk : List Val) (loc : Dict) (bl : List (Nat × Nat))
    (σ : List (String × Val)) (h : m.getattr x = .error e) :
    step m "LOAD_ATTR" (.name x) (MState.mk (.obj 0 :: stk) loc bl σ)
      = .raiseE e (MState.mk stk loc bl σ) := by
  rw [step_load_attr, h]

theorem step_binary_subscr_ok (m : Machine) (x : String) (v : Val)
    (stk : List Val) (loc : Dict) (bl : List (Nat × Nat))
    (σ : List (String × Val)) (h : m.getitem x = .ok v) :
    step m "BINARY_SUBSCR" .noArg
        (MState.mk (.str x :: .obj 0 :: stk) loc bl σ)
      = .next (MState.mk (v :: stk) loc bl σ) := by
  rw [step_binary_subscr, h]

theorem step_binary_subscr_err (m : Machine) (x : String) (e : Exc)
    (stk : List Val) (loc : Dict) (bl : List (Nat × Nat))
    (σ : List (String × Val)) (h : m.getitem x = .error e) :
    step m "BINARY_SUBSCR" .noArg
        (MState.mk (.str x :: .obj 0 :: stk) loc bl σ)
      = .raiseE e (MState.mk stk loc bl σ) := by
  rw [step_binary_subscr, h]

theorem step_call_ln_ok (m : Machine) (x : String) (v : Val)
    (stk : List Val) (loc : Dict) (bl : List (Nat × Nat))
    (σ : List (String × Val)) (h : load_name m.frame x = .ok v) :
    step m "CALL_FUNCTION" (.num 2)
        (MState.mk (.str x :: .frameRef :: .funcLoadName :: stk) loc bl σ)
      = .next (MState.mk (v :: stk) loc bl σ) := by
  rw [step_call_ln, h]

theorem step_call_ln_err (m : Machine) (x : String) (e : Exc)
    (stk : List Val) (loc : Dict) (bl : List (Nat × Nat))
    (σ : List (String × Val)) (h : load_name m.frame x = .error e) :
    step m "CALL_FUNCTION" (.num 2)
        (MState.mk (.str x :: .frameRef :: .funcLoadName :: stk) loc bl σ)
      = .raiseE e (MState.mk stk loc bl σ) := by
  rw [step_call_ln, h]

theorem exec_nil (m : Machine) (st : MState) : exec m [] st = .ok st := by
  rw [exec]

theorem exec_label (m : Machine) (l : Nat) (rest : List AbsItem)
    (st : MState) : exec m (.label l :: rest) st = exec m rest st := by
  rw [exec]

theorem exec_cons_next (m : Machine) (n : String) (a : Arg)
    (rest : List AbsItem) (st st2 : MState)
    (h : step m n a st = .next st2) :
    exec m (.instr n a :: rest) st = exec m rest st2 := by
  rw [exec, h]

theorem exec_cons_jump (m : Machine) (n : String) (a : Arg) (l : Nat)
    (rest : List AbsItem) (st st2 : MState)
    (h : step m n a st = .jump l st2) :
    exec m (.instr n a :: rest) st = exec m (dropToLabel l rest) st2 := by
  rw [exec, h]

theorem exec_cons_raise_nohandler (m : Machine) (n : String) (a : Arg)
    (e : Exc) (rest : List AbsItem) (st : MState)
    (stk : List Val) (loc : Dict) (σ : List (String × Val))
    (h : step m n a st = .raiseE e (MState.mk stk loc [] σ)) :
    exec m (.instr n a :: rest) st = .raised e := by
  rw [exec, h]

theorem exec_cons_raise_handler (m : Machine) (n : String) (a : Arg)
    (e : Exc) (rest : List AbsItem) (st : MState) (stk : List Val)
    (loc : Dict) (hd d : Nat) (bl : List (Nat × Nat))
    (σ : List (String × Val))
    (h : step m n a st = .raiseE e (MState.mk stk loc ((hd, d) :: bl) σ)) :
    exec m (.instr n a :: rest) st
      = exec m (dropToLabel hd rest)
          (MState.mk (unwindStack e d stk) loc bl σ) := by
  rw [exec, h]

theorem exec_ns_store (m : Machine) (x : String) (v : Val)
    (σ : List (String × Val)) :
    exec m (nsStoreSeq x) (MState.mk [v] nsLoc [] σ)
      = .ok (MState.mk [] nsLoc [] ((x, v) :: σ)) := by
  rw [nsStoreSeq,
    exec_cons_next _ _ _ _ _ _
      (step_load_fast m nsVar (.obj 0) _ (by simp [nsLoc, dlookup])),
    exec_cons_next _ _ _ _ _ _ (step_store_attr m x v [] nsLoc [] σ),
    exec]

theorem exec_ns_load_ok (m : Machine) (x : String) (v : Val)
    (σ : List (String × Val)) (h : m.getattr x = .ok v) :
    exec m (nsLoadSeq x) (MState.mk [] nsLoc [] σ)
      = .ok (MState.mk [v] (dinsert nsLoc nsValVar v) [] σ) := by
  simp only [nsLoadSeq, guardedLoad, List.cons_append, List.nil_append]
  rw [exec_cons_next _ _ _ _ _ _ (step_setup_except m 0 _)]
  simp only [List.length_nil]
  rw [exec_cons_next _ _ _ _ _ _
    (step_load_fast m nsVar (.obj 0) _ (by simp [nsLoc, dlookup]))]
  rw [exec_cons_next _ _ _ _ _ _
    (step_load_attr_ok m x v [] nsLoc [(0, 0)] σ h)]
  rw [exec_cons_next _ _ _ _ _ _ (step_store_fast m nsValVar v [] nsLoc [(0, 0)] σ)]
  rw [exec_cons_next _ _ _ _ _ _
    (step_pop_block m [] (dinsert nsLoc nsValVar v) (0, 0) [] σ)]
  rw [exec_cons_jump _ _ _ _ _ _ _ (step_jump_forward m 2 _)]
  simp only [dropToLabel_cons_label, dropToLabel_cons_instr,
    Nat.reduceEqDiff, reduceIte]
  rw [exec_cons_next _ _ _ _ _ _
      (step_load_fast m nsValVar v _
        (by simp [nsLoc, nsValVar, nsVar, dlookup, dinsert])),
    exec_nil]

theorem exec_ns_load_fallback (m : Machine) (x : String) (e : Exc)
    (σ : List (String × Val)) (h : m.getattr x = .error e)
    (hce : classOf e = .attributeError) :
    exec m (nsLoadSeq x) (MState.mk [] nsLoc [] σ)
      = match load_name m.frame x with
        | .ok w => .ok (MState.mk [w] (dinsert nsLoc nsValVar w) [] σ)
        | .error e2 => .raised e2 := by
  simp only [nsLoadSeq, guardedLoad, List.cons_append, List.nil_append]
  rw [exec_cons_next _ _ _ _ _ _ (step_setup_except m 0 _)]
  simp only [List.length_nil]
  rw [exec_cons_next _ _ _ _ _ _
    (step_load_fast m nsVar (.obj 0) _ (by simp [nsLoc, dlookup]))]
  rw [exec_cons_raise_handler _ _ _ _ _ _ _ _ _ _ _ _
    (step_load_attr_err m x e [] nsLoc [(0, 0)] σ h)]
  simp only [dropToLabel_cons_label, dropToLabel_cons_instr,
    Nat.reduceEqDiff, reduceIte, unwindStack, popTo, List.length_nil,
    Nat.sub_self, List.drop_nil, List.drop_zero, hce]
  rw [exec_cons_next _ _ _ _ _ _ (step_dup_top m _ _ nsLoc [] σ)]
  rw [exec_cons_next _ _ _ _ _ _ (step_load_const m _ _)]
  rw [exec_cons_next _ _ _ _ _ _
    (step_compare_exc m ExcClass.attributeError ExcClass.attributeError _ nsLoc [] σ)]
  rw [show decide (ExcClass.attributeError = ExcClass.attributeError) = true
    from rfl]
  rw [exec_cons_next _ _ _ _ _ _ (step_pjif_true m 1 _ nsLoc [] σ)]
  rw [exec_cons_next _ _ _ _ _ _ (step_pop_top m _ _ nsLoc [] σ)]
  rw [exec_cons_next _ _ _ _ _ _ (step_pop_top m _ _ nsLoc [] σ)]
  rw [exec_cons_next _ _ _ _ _ _ (step_pop_top m _ _ nsLoc [] σ)]
  rw [exec_cons_next _ _ _ _ _ _ (step_load_const m _ _)]
  rw [exec_cons_next _ _ _ _ _ _ (step_load_const m _ _)]
  rw [exec_cons_next _ _ _ _ _ _ (step_load_const m _ _)]
  rcases hl : load_name m.frame x with e2 | w
  · rw [exec_cons_raise_nohandler _ _ _ _ _ _ _ _ _
      (step_call_ln_err m x e2 [] nsLoc [] σ hl)]
  · rw [exec_cons_next _ _ _ _ _ _ (step_call_ln_ok m x w [] nsLoc [] σ hl)]
    rw [exec_cons_next _ _ _ _ _ _ (step_store_fast m nsValVar w [] nsLoc [] σ)]
    rw [exec_cons_next _ _ _ _ _ _ (step_pop_except m _)]
    rw [exec_cons_jump _ _ _ _ _ _ _ (step_jump_forward m 2 _)]
    simp only [dropToLabel_cons_label, dropToLabel_cons_instr,
      Nat.reduceEqDiff, reduceIte]
    rw [exec_cons_next _ _ _ _ _ _
        (step_load_fast m nsValVar w _
          (by simp [nsLoc, nsValVar, nsVar, dlookup, dinsert])),
      exec_nil]

theorem exec_ns_load_other (m : Machine) (x : String) (e : Exc)
    (σ : List (String × Val)) (h : m.getattr x = .error e)
    (hce : classOf e ≠ .attributeError) :
    exec m (nsLoadSeq x) (MState.mk [] nsLoc [] σ) = .raised e := by
  simp only [nsLoadSeq, guardedLoad, List.cons_append, List.nil_append]
  rw [exec_cons_next _ _ _ _ _ _ (step_setup_except m 0 _)]
  simp only [List.length_nil]
  rw [exec_cons_next _ _ _ _ _ _
    (step_load_fast m nsVar (.obj 0) _ (by simp [nsLoc, dlookup]))]
  rw [exec_cons_raise_handler _ _ _ _ _ _ _ _ _ _ _ _
    (step_load_attr_err m x e [] nsLoc [(0, 0)] σ h)]
  simp only [dropToLabel_cons_label, dropToLabel_cons_instr,
    Nat.reduceEqDiff, reduceIte, unwindStack, popTo, List.length_nil,
    Nat.sub_self, List.drop_nil, List.drop_zero]
  rw [exec_cons_next _ _ _ _ _ _ (step_dup_top m _ _ nsLoc [] σ)]
  rw [exec_cons_next _ _ _ _ _ _ (step_load_const m _ _)]
  rw [exec_cons_next _ _ _ _ _ _
    (step_compare_exc m (classOf e) ExcClass.attributeError _ nsLoc [] σ)]
  rw [decide_eq_false hce]
  rw [exec_cons_jump _ _ _ _ _ _ _ (step_pjif_false m 1 _ nsLoc [] σ)]
  simp only [dropToLabel_cons_label, dropToLabel_cons_instr,
    Nat.reduceEqDiff, reduceIte]
  rw [exec_cons_raise_nohandler _ _ _ _ _ _ _ _ _
    (step_end_finally m (classOf e) e [] nsLoc [] σ)]

theorem exec_ks_store (m : Machine) (x : String) (v : Val)
    (σ : List (String × Val)) :
    exec m (ksStoreSeq x) (MState.mk [v] nsLoc [] σ)
      = .ok (MState.mk [] nsLoc [] ((x, v) :: σ)) := by
  rw [ksStoreSeq,
    exec_cons_next _ _ _ _ _ _
      (step_load_fast m nsVar (.obj 0) _ (by simp [nsLoc, dlookup])),
    exec_cons_next _ _ _ _ _ _ (step_load_const m _ _),
    exec_cons_next _ _ _ _ _ _ (step_store_subscr m x v [] nsLoc [] σ),
    exec]

theorem exec_ks_load_ok (m : Machine) (x : String) (v : Val)
    (σ : List (String × Val)) (h : m.getitem x = .ok v) :
    exec m (ksLoadSeq x) (MState.mk [] nsLoc [] σ)
      = .ok (MState.mk [v] (dinsert nsLoc nsValVar v) [] σ) := by
  simp only [ksLoadSeq, guardedLoad, List.cons_append, List.nil_append]
  rw [exec_cons_next _ _ _ _ _ _ (step_setup_except m 0 _)]
  simp only [List.length_nil]
  rw [exec_cons_next _ _ _ _ _ _
    (step_load_fast m nsVar (.obj 0) _ (by simp [nsLoc, dlookup]))]
  rw [exec_cons_next _ _ _ _ _ _ (step_load_const m _ _)]
  rw [exec_cons_next _ _ _ _ _ _
    (step_binary_subscr_ok m x v [] nsLoc [(0, 0)] σ h)]
  rw [exec_cons_next _ _ _ _ _ _ (step_store_fast m nsValVar v [] nsLoc [(0, 0)] σ)]
  rw [exec_cons_next _ _ _ _ _ _
    (step_pop_block m [] (dinsert nsLoc nsValVar v) (0, 0) [] σ)]
  rw [exec_cons_jump _ _ _ _ _ _ _ (step_jump_forward m 2 _)]
  simp only [dropToLabel_cons_label, dropToLabel_cons_instr,
    Nat.reduceEqDiff, reduceIte]
  rw [exec_cons_next _ _ _ _ _ _
      (step_load_fast m nsValVar v _
        (by simp [nsLoc, nsValVar, nsVar, dlookup, dinsert])),
    exec_nil]

theorem exec_ks_load_fallback (m : Machine) (x : String) (e : Exc)
    (σ : List (String × Val)) (h : m.getitem x = .error e)
    (hce : classOf e = .keyError) :
    exec m (ksLoadSeq x) (MState.mk [] nsLoc [] σ)
      = match load_name m.frame x with
        | .ok w => .ok (MState.mk [w] (dinsert nsLoc nsValVar w) [] σ)
        | .error e2 => .raised e2 := by
  simp only [ksLoadSeq, guardedLoad, List.cons_append, List.nil_append]
  rw [exec_cons_next _ _ _ _ _ _ (step_setup_except m 0 _)]
  simp only [List.length_nil]
  rw [exec_cons_next _ _ _ _ _ _
    (step_load_fast m nsVar (.obj 0) _ (by simp [nsLoc, dlookup]))]
  rw [exec_cons_next _ _ _ _ _ _ (step_load_const m _ _)]
  rw [exec_cons_raise_handler _ _ _ _ _ _ _ _ _ _ _ _
    (step_binary_subscr_err m x e [] nsLoc [(0, 0)] σ h)]
  simp only [dropToLabel_cons_label, dropToLabel_cons_instr,
    Nat.reduceEqDiff, reduceIte, unwindStack, popTo, List.length_nil,
    Nat.sub_self, List.drop_nil, List.drop_zero, hce]
  rw [exec_cons_next _ _ _ _ _ _ (step_dup_top m _ _ nsLoc [] σ)]
  rw [exec_cons_next _ _ _ _ _ _ (step_load_const m _ _)]
  rw [exec_cons_next _ _ _ _ _ _
    (step_compare_exc m ExcClass.keyError ExcClass.keyError _ nsLoc [] σ)]
  rw [show decide (ExcClass.keyError = ExcClass.keyError) = true from rfl]
  rw [exec_cons_next _ _ _ _ _ _ (step_pjif_true m 1 _ nsLoc [] σ)]
  rw [exec_cons_next _ _ _ _ _ _ (step_pop_top m _ _ nsLoc [] σ)]
  rw [exec_cons_next _ _ _ _ _ _ (step_pop_top m _ _ nsLoc [] σ)]
  rw [exec_cons_next _ _ _ _ _ _ (step_pop_top m _ _ nsLoc [] σ)]
  rw [exec_cons_next _ _ _ _ _ _ (step_load_const m _ _)]
  rw [exec_cons_next _ _ _ _ _ _ (step_load_const m _ _)]
  rw [exec_cons_next _ _ _ _ _ _ (step_load_const m _ _)]
  rcases hl : load_name m.frame x with e2 | w
  · rw [exec_cons_raise_nohandler _ _ _ _ _ _ _ _ _
      (step_call_ln_err m x e2 [] nsLoc [] σ hl)]
  · rw [exec_cons_next _ _ _ _ _ _ (step_call_ln_ok m x w [] nsLoc [] σ hl)]
    rw [exec_cons_next _ _ _ _ _ _ (step_store_fast m nsValVar w [] nsLoc [] σ)]
    rw [exec_cons_next _ _ _ _ _ _ (step_pop_except m _)]
    rw [exec_cons_jump _ _ _ _ _ _ _ (step_jump_forward m 2 _)]
    simp only [dropToLabel_cons_label, dropToLabel_cons_instr,
      Nat.reduceEqDiff, reduceIte]
    rw [exec_cons_next _ _ _ _ _ _
        (step_load_fast m nsValVar w _
          (by simp [nsLoc, nsValVar, nsVar, dlookup, dinsert])),
      exec_nil]

theorem exec_ks_load_other (m : Machine) (x : String) (e : Exc)
    (σ : List (String × Val)) (h : m.getitem x = .error e)
    (hce : classOf e ≠ .keyError) :
    exec m (ksLoadSeq x) (MState.mk [] nsLoc [] σ) = .raised e := by
  simp only [ksLoadSeq, guardedLoad, List.cons_append, List.nil_append]
  rw [exec_cons_next _ _ _ _ _ _ (step_setup_except m 0 _)]
  simp only [List.length_nil]
  rw [exec_cons_next _ _ _ _ _ _
    (step_load_fast m nsVar (.obj 0) _ (by simp [nsLoc, dlookup]))]
  rw [exec_cons_next _ _ _ _ _ _ (step_load_const m _ _)]
  rw [exec_cons_raise_handler _ _ _ _ _ _ _ _ _ _ _ _
    (step_binary_subscr_err m x e [] nsLoc [(0, 0)] σ h)]
  simp only [dropToLabel_cons_label, dropToLabel_cons_instr,
    Nat.reduceEqDiff, reduceIte, unwindStack, popTo, List.length_nil,
    Nat.sub_self, List.drop_nil, List.drop_zero]
  rw [exec_cons_next _ _ _ _ _ _ (step_dup_top m _ _ nsLoc [] σ)]
  rw [exec_cons_next _ _ _ _ _ _ (step_load_const m _ _)]
  rw [exec_cons_next _ _ _ _ _ _
    (step_compare_exc m (classOf e) ExcClass.keyError _ nsLoc [] σ)]
  rw [decide_eq_false hce]
  rw [exec_cons_jump _ _ _ _ _ _ _ (step_pjif_false m 1 _ nsLoc [] σ)]
  simp only [dropToLabel_cons_label, dropToLabel_cons_instr,
    Nat.reduceEqDiff, reduceIte]
  rw [exec_cons_raise_nohandler _ _ _ _ _ _ _ _ _
    (step_end_finally m (classOf e) e [] nsLoc [] σ)]

/-- Claim C2: in target-redirect rewriting, every `STORE_FAST`/
`STORE_NAME` of a variable is replaced by loading the target object and
performing an attribute store (`namespace`) or key store (`keyspace`)
under the same name — running the replacement records exactly that store
on the target; and every `LOAD_FAST`/`LOAD_NAME`/`LOAD_GLOBAL`/
`LOAD_DEREF` is replaced by the guarded sequence that attempts the
attribute (resp. key) load on the target and: on success yields its
value; exactly when the attempt fails with `AttributeError` (resp.
`KeyError`) falls back to `load_name` bound to the original frame
(whose `NameError`, if any, propagates); and when the attempt fails
with any other exception, that exception propagates unchanged. -/
theorem target_redirect_spec (m : Machine) (x : String) (v : Val) (e : Exc)
    (σ : List (String × Val)) :
    (∀ op, op = "STORE_FAST" ∨ op = "STORE_NAME" →
      nsReplaceOpcode (.instr op (.name x)) = some (nsStoreSeq x)
      ∧ ksReplaceOpcode (.instr op (.name x)) = some (ksStoreSeq x))
    ∧ exec m (nsStoreSeq x) (MState.mk [v] nsLoc [] σ)
        = .ok (MState.mk [] nsLoc [] ((x, v) :: σ))
    ∧ exec m (ksStoreSeq x) (MState.mk [v] nsLoc [] σ)
        = .ok (MState.mk [] nsLoc [] ((x, v) :: σ))
    ∧ (∀ op, op = "LOAD_FAST" ∨ op = "LOAD_NAME" ∨ op = "LOAD_GLOBAL"
          ∨ op = "LOAD_DEREF" →
      nsReplaceOpcode (.instr op (.name x)) = some (nsLoadSeq x)
      ∧ ksReplaceOpcode (.instr op (.name x)) = some (ksLoadSeq x))
    ∧ (m.getattr x = .ok v →
        exec m (nsLoadSeq x) (MState.mk [] nsLoc [] σ)
          = .ok (MState.mk [v] (dinsert nsLoc nsValVar v) [] σ))
    ∧ (m.getitem x = .ok v →
        exec m (ksLoadSeq x) (MState.mk [] nsLoc [] σ)
          = .ok (MState.mk [v] (dinsert nsLoc nsValVar v) [] σ))
    ∧ (m.getattr x = .error e → classOf e = .attributeError →
        exec m (nsLoadSeq x) (MState.mk [] nsLoc [] σ)
          = match load_name m.frame x with
            | .ok w => .ok (MState.mk [w] (dinsert nsLoc nsValVar w) [] σ)
            | .error e2 => .raised e2)
    ∧ (m.getitem x = .error e → classOf e = .keyError →
        exec m (ksLoadSeq x) (MState.mk [] nsLoc [] σ)
          = match load_name m.frame x with
            | .ok w => .ok (MState.mk [w] (dinsert nsLoc nsValVar w) [] σ)
            | .error e2 => .raised e2)
    ∧ (m.getattr x = .error e → classOf e ≠ .attributeError →
        exec m (nsLoadSeq x) (MState.mk [] nsLoc [] σ) = .raised e)
    ∧ (m.getitem x = .error e → classOf e ≠ .keyError →
        exec m (ksLoadSeq x) (MState.mk [] nsLoc [] σ) = .raised e) := by
  refine ⟨?_, exec_ns_store m x v σ, exec_ks_store m x v σ, ?_,
    exec_ns_load_ok m x v σ, exec_ks_load_ok m x v σ,
    exec_ns_load_fallback m x e σ, exec_ks_load_fallback m x e σ,
    exec_ns_load_other m x e σ, exec_ks_load_other m x e σ⟩
  · rintro op (rfl | rfl) <;> exact ⟨rfl, rfl⟩
  · rintro op (rfl | rfl | rfl | rfl) <;> exact ⟨rfl, rfl⟩

/-- Claim C2 witness: on a target whose only attribute/key is `"a" = 1`
and an empty frame — an attribute load of `"a"` succeeds with `1`; a key
load of `"b"` raises `KeyError`, falls back to `load_name`, which raises
`NameError("b")`; a store of `"c"` records the attribute store on the
target. -/
theorem target_redirect_spec_check :
    machEx.getattr "a" = .ok (.int 1)
    ∧ exec machEx (nsLoadSeq "a") (MState.mk [] nsLoc [] [])
        = .ok (MState.mk [.int 1] (dinsert nsLoc nsValVar (.int 1)) [] [])
    ∧ machEx.getitem "b" = .error (.keyErr "b")
    ∧ classOf (.keyErr "b") = .keyError
    ∧ exec machEx (ksLoadSeq "b") (MState.mk [] nsLoc [] [])
        = .raised (.nameErr "b")
    ∧ exec machEx (nsStoreSeq "c") (MState.mk [.int 7] nsLoc [] [])
        = .ok (MState.mk [] nsLoc [] [("c", .int 7)]) := by
  refine ⟨rfl, ?_, rfl, rfl, ?_, ?_⟩
  · exact (target_redirect_spec machEx "a" (.int 1) (.other 0) []).2.2.2.2.1
      rfl
  · have hks := (target_redirect_spec machEx "b" (.int 0) (.keyErr "b")
      []).2.2.2.2.2.2.2.1 rfl rfl
    rw [hks]
    rfl
  · exact (target_redirect_spec machEx "c" (.int 7) (.other 0) []).2.1

end WithHacks
